import Mathlib

set_option maxRecDepth 100000

/-
Shallow embedding of the Ches bytecode virtual machine (ChesLang/rustnut).

The model follows src/src/runtime.rs (the interpreter: registers sp, bp,
pc, pp over a byte-addressed operand-stack arena and a bytecode buffer),
src/src/bytecode.rs (container access) and src/src/lib.rs (ChesVM::run).

Conventions of the embedding:
- machine bytes are Nat values; multi-byte integers are read and written
  little-endian (the spec's normative byte order);
- usize is 8 bytes (the reference targets x86_64);
- the raw-pointer arena is a List Nat of bytes; malloc's uninitialized
  memory is modelled as zeros (no claim depends on uninitialized bytes);
- fallible operations return Except ExitStatus; a Rust `exit!` + break of
  the dispatch loop is Except.error.
-/

/-- Exit statuses, from `enum ExitStatus` in src/src/runtime.rs. -/
inductive ExitStatus where
  | Success
  | UnknownOpcode
  | UnknownCallNumber
  | BytecodeAccessViolation
  | StackOverflow
  | StackAccessViolation
  | ArithmeticOverflow
  | DivideByZero
  | Unknown
deriving DecidableEq

/-- Opcodes, from `enum Opcode` in src/src/runtime.rs. -/
inductive Opcode where
  | Unknown
  | Nop
  | Exit
  | Call
  | Invoke
  | Ret
  | BPush
  | SPush
  | IPush
  | LPush
  | Dup
  | Dup2
  | Pop
  | Pop2
  | Load
  | Load2
  | Store
  | Store2
  | IAdd
  | LAdd
  | ISub
  | LSub
  | IMul
  | LMul
  | IDiv
  | LDiv
  | IEq
  | LEq
  | IOrd
  | LOrd
  | IEqOrd
  | LEqOrd
  | Goto
  | If
deriving DecidableEq

/-- Opcode decoding, from `impl From<u8> for Opcode` in src/src/runtime.rs. -/
def Opcode.fromU8 (v : Nat) : Opcode :=
  match v with
  | 0x00 => .Nop
  | 0x01 => .Exit
  | 0x02 => .Call
  | 0x03 => .Invoke
  | 0x04 => .Ret
  | 0x05 => .BPush
  | 0x06 => .SPush
  | 0x07 => .IPush
  | 0x08 => .LPush
  | 0x09 => .Dup
  | 0x0a => .Dup2
  | 0x0b => .Pop
  | 0x0c => .Pop2
  | 0x0d => .Load
  | 0x0e => .Load2
  | 0x0f => .Store
  | 0x10 => .Store2
  | 0x11 => .IAdd
  | 0x12 => .LAdd
  | 0x13 => .ISub
  | 0x14 => .LSub
  | 0x15 => .IMul
  | 0x16 => .LMul
  | 0x17 => .IDiv
  | 0x18 => .LDiv
  | 0x19 => .IEq
  | 0x1a => .LEq
  | 0x1b => .IOrd
  | 0x1c => .LOrd
  | 0x1d => .IEqOrd
  | 0x1e => .LEqOrd
  | 0x1f => .Goto
  | 0x20 => .If
  | _ => .Unknown

/-- Size of a pointer-width word (`size_of::<usize>()` on the x86_64 reference target). -/
def ptrSize : Nat := 8

/-- Fixed operand-stack capacity: `let max_stack_size = 1024usize` in Interpreter::run. -/
def maxStackSize : Nat := 1024

/-- Offset of the constant pool: `let pool_offset = 128usize` in Interpreter::run. -/
def poolOffset : Nat := 128

/-- Little-endian read of n bytes starting at pos (missing bytes read as 0). -/
def readBytes (m : List Nat) (pos n : Nat) : Nat :=
  match n with
  | 0 => 0
  | k + 1 => m.getD pos 0 + 256 * readBytes m (pos + 1) k

/-- Little-endian write of the low n bytes of v starting at pos (out-of-range writes are dropped). -/
def writeBytes (m : List Nat) (pos n v : Nat) : List Nat :=
  match n with
  | 0 => m
  | k + 1 => writeBytes (m.set pos (v % 256)) (pos + 1) k (v / 256)

/-- Interpreter registers and memory: sp, bp, pc, pp of Interpreter::run plus the
two byte regions they walk (the bytecode buffer and the malloc'd stack arena). -/
structure VM where
  bytecode : List Nat
  stack : List Nat
  sp : Nat
  bp : Nat
  pc : Nat
  pp : Nat
deriving DecidableEq

/-- The byte the dispatch loop would fetch next (`next_prg!(u8)` reads at pc). -/
def opcodeAt (s : VM) : Nat := readBytes s.bytecode s.pc 1

/-- Cursor read `next!` on the instruction cursor (`next_prg!`): n-byte read at pc,
`BytecodeAccessViolation` when `pc + n > bytecode_len`. -/
def nextPrg (n : Nat) (s : VM) : Except ExitStatus (Nat × VM) :=
  if s.pc + n > s.bytecode.length then .error .BytecodeAccessViolation
  else .ok (readBytes s.bytecode s.pc n, { s with pc := s.pc + n })

/-- Cursor read `next!` on the pool cursor (`next_pool!`). -/
def nextPool (n : Nat) (s : VM) : Except ExitStatus (Nat × VM) :=
  if s.pp + n > s.bytecode.length then .error .BytecodeAccessViolation
  else .ok (readBytes s.bytecode s.pp n, { s with pp := s.pp + n })

/-- `jump_prg_to!`: absolute jump of the instruction cursor, `BytecodeAccessViolation`
when the target exceeds `bytecode_len`. -/
def jumpPrgTo (i : Nat) (s : VM) : Except ExitStatus VM :=
  if i > s.bytecode.length then .error .BytecodeAccessViolation
  else .ok { s with pc := i }

/-- The first half of `jump_pool_to!`: absolute jump of the pool cursor. -/
def jumpPoolTo (i : Nat) (s : VM) : Except ExitStatus VM :=
  if i > s.bytecode.length then .error .BytecodeAccessViolation
  else .ok { s with pp := i }

/-- `jump_stack_to!`: absolute move of sp, `StackAccessViolation` (note: not
StackOverflow) when the target exceeds `max_stack_size`. -/
def jumpStackTo (i : Nat) (s : VM) : Except ExitStatus VM :=
  if i > maxStackSize then .error .StackAccessViolation
  else .ok { s with sp := i }

/-- `stack_push!`: bounds check against `max_stack_size` with `StackOverflow`,
then write the w-byte value at sp and advance sp. -/
def stackPush (w v : Nat) (s : VM) : Except ExitStatus VM :=
  if s.sp + w > maxStackSize then .error .StackOverflow
  else .ok { s with stack := writeBytes s.stack s.sp w v, sp := s.sp + w }

/-- `unsafe_stack_pop!` (one value): pop that may cross the frame guard; only
checks `sp >= w`, with `StackAccessViolation` otherwise. -/
def rawStackPop (w : Nat) (s : VM) : Except ExitStatus (Nat × VM) :=
  if s.sp < w then .error .StackAccessViolation
  else .ok (readBytes s.stack (s.sp - w) w, { s with sp := s.sp - w })

/-- `unsafe_stack_pop!(ty, len)`: len raw pops in sequence, values discarded. -/
def rawPopN (w : Nat) : Nat → VM → Except ExitStatus VM
  | 0, s => .ok s
  | k + 1, s => do
    let (_, s1) ← rawStackPop w s
    rawPopN w k s1

/-- `stack_pop!`: the SAFE pop; fails with `StackAccessViolation` when the pop
would reach at or below `bp + 2 * ptrSize` (the saved bp / return address), else
delegates to the raw pop. -/
def stackPop (w : Nat) (s : VM) : Except ExitStatus (Nat × VM) :=
  if s.sp < s.bp + 2 * ptrSize + w then .error .StackAccessViolation
  else rawStackPop w s

/-- `stack_pop!(ty, len)`: len safe pops in sequence, values discarded. -/
def popN (w : Nat) : Nat → VM → Except ExitStatus VM
  | 0, s => .ok s
  | k + 1, s => do
    let (_, s1) ← stackPop w s
    popN w k s1

/-- `stack_top!`: guarded non-destructive read of the top w bytes; the inner
`unsafe_stack_top!` uses `StackOverflow` as its (unreachable) error status. -/
def stackTop (w : Nat) (s : VM) : Except ExitStatus Nat :=
  if s.sp < s.bp + 2 * ptrSize + w then .error .StackAccessViolation
  else if s.sp < w then .error .StackOverflow
  else .ok (readBytes s.stack (s.sp - w) w)

/-- `var_table_diff!`: distance from sp down to local slot var_i, after the frame
guard `sp >= bp + 2 * ptrSize` and the slot-bound check. -/
def varTableDiff (w varI : Nat) (s : VM) : Except ExitStatus Nat :=
  if s.sp < s.bp + 2 * ptrSize then .error .StackAccessViolation
  else if s.sp - s.bp - 2 * ptrSize < 4 * varI + w then .error .StackAccessViolation
  else .ok (s.sp - s.bp - 2 * ptrSize - varI * 4)

/-- `load!`: push the w-byte content of local slot varI. -/
def loadOp (w varI : Nat) (s : VM) : Except ExitStatus VM := do
  let diff ← varTableDiff w varI s
  stackPush w (readBytes s.stack (s.sp - diff) w) s

/-- `store!`: overwrite local slot varI with a w-byte value (no sp change). -/
def storeOp (w varI v : Nat) (s : VM) : Except ExitStatus VM := do
  let diff ← varTableDiff w varI s
  .ok { s with stack := writeBytes s.stack (s.sp - diff) w v }

/-- Rust `overflowing_add` on an unsigned m-modular integer. -/
def overflowingAdd (m l r : Nat) : Nat × Bool := ((l + r) % m, decide (m ≤ l + r))

/-- Rust `overflowing_sub` on an unsigned m-modular integer. -/
def overflowingSub (m l r : Nat) : Nat × Bool := ((l + m - r) % m, decide (l < r))

/-- Rust `overflowing_mul` on an unsigned m-modular integer. -/
def overflowingMul (m l r : Nat) : Nat × Bool := ((l * r) % m, decide (m ≤ l * r))

/-- Rust `overflowing_div` on an unsigned integer: overflow never occurs, the
flag is constantly false (the divisor is checked for zero before the call). -/
def overflowingDiv (_m l r : Nat) : Nat × Bool := (l / r, false)

/-- `calc!`: pop right then left (SAFE pops), optional divide-by-zero check on
the right operand, checked arithmetic, push the result. -/
def calcOp (w : Nat) (f : Nat → Nat → Nat × Bool) (checkDivideByZero : Bool)
    (s : VM) : Except ExitStatus VM := do
  let (rightTerm, s1) ← stackPop w s
  let (leftTerm, s2) ← stackPop w s1
  if checkDivideByZero = true ∧ rightTerm = 0 then .error .DivideByZero
  else
    let (value, overflowing) := f leftTerm rightTerm
    if overflowing = true then .error .ArithmeticOverflow
    else stackPush w value s2

/-- Comparison arms (IEq/IOrd/IEqOrd and the w64 variants): pop value2 then
value1, push the w32 truth value of `value1 rel value2`. -/
def cmpOp (w : Nat) (rel : Nat → Nat → Bool) (s : VM) : Except ExitStatus VM := do
  let (value2, s1) ← stackPop w s
  let (value1, s2) ← stackPop w s1
  stackPush 4 (if rel value1 value2 then 1 else 0) s2

/-- Sign extension of a 16-bit value (`as i16`). -/
def toI16 (n : Nat) : Int :=
  if n < 32768 then (n : Int) else (n : Int) - 65536

/-- `goto!`: read an i16 offset, add it to the post-read pc, fail on a negative
target, then absolute-jump the instruction cursor. -/
def gotoOp (s : VM) : Except ExitStatus VM := do
  let (offset, s1) ← nextPrg 2 s
  let instI : Int := (s1.pc : Int) + toI16 offset
  if instI < 0 then .error .BytecodeAccessViolation
  else jumpPrgTo instI.toNat s1

/-- The If arm: pop a w32 condition; the offset is read (and the jump applied)
only when the condition is nonzero. -/
def ifOp (s : VM) : Except ExitStatus VM := do
  let (cond, s1) ← stackPop 4 s
  if cond ≠ 0 then gotoOp s1 else .ok s1

/-- `stack_push_next_prg!`: read an inline operand of readW bytes and push it as
a pushW-byte stack value. -/
def stackPushNextPrg (readW pushW : Nat) (s : VM) : Except ExitStatus VM := do
  let (value, s1) ← nextPrg readW s
  stackPush pushW value s1

/-- Sequential pushes of w-byte values (the argument re-push loop of Invoke). -/
def pushList (w : Nat) : List Nat → VM → Except ExitStatus VM
  | [], s => .ok s
  | v :: rest, s => do
    let s1 ← stackPush w v s
    pushList w rest s1

/-- The Invoke arm of Interpreter::run: resolve the pool descriptor, check
`var_len >= arg_len` and `sp >= arg_len * 4`, snapshot and pop the top arg_len
w32 arguments, push the caller bp (the new bp is the sp from before that push),
push the return address, re-push the arguments, reserve the remaining locals by
moving sp, and jump to the function start. -/
def invokeOp (s : VM) : Except ExitStatus VM := do
  let (poolI, s1) ← nextPrg 8 s
  let s2 ← jumpPoolTo (poolOffset + poolI * 8) s1
  let (valueAddr, s3) ← nextPool 8 s2
  let s4 ← jumpPoolTo valueAddr s3
  let (startAddr, s5) ← nextPool 8 s4
  let (varLenV, s6) ← nextPool 2 s5
  let (argLenV, s7) ← nextPool 1 s6
  if varLenV < argLenV ∨ s7.sp < argLenV * 4 then .error .StackAccessViolation
  else
    let args := (List.range argLenV).map
      (fun i => readBytes s7.stack (s7.sp - 4 * (argLenV - i)) 4)
    let s8 ← popN 4 argLenV s7
    let newBp := s8.sp
    let s9 ← stackPush 8 s8.bp s8
    let s10 := { s9 with bp := newBp }
    let retAddr := s10.pc
    let s11 ← stackPush 8 retAddr s10
    let s12 ← pushList 4 args s11
    let s13 ← jumpStackTo (s12.sp + (varLenV - argLenV) * 4) s12
    jumpPrgTo startAddr s13

/-- The Ret arm of Interpreter::run: require `sp - bp >= 2 * ptrSize`, discard
the frame above the return address with raw u8 pops, pop the return address and
jump to it, then pop and restore the caller bp. -/
def retOp (s : VM) : Except ExitStatus VM := do
  if s.sp < s.bp ∨ s.sp - s.bp < 2 * ptrSize then .error .StackAccessViolation
  else
    let s1 ← rawPopN 1 (s.sp - s.bp - 2 * ptrSize) s
    let (retAddr, s2) ← rawStackPop 8 s1
    let s3 ← jumpPrgTo retAddr s2
    let (newBp, s4) ← rawStackPop 8 s3
    .ok { s4 with bp := newBp }

/-- The Call arm: read a host-call code; code 0 writes bytes to stdout (no VM
state change), any other code is `UnknownCallNumber`. -/
def callOp (s : VM) : Except ExitStatus VM := do
  let (code, s1) ← nextPrg 1 s
  match code with
  | 0 => .ok s1
  | _ => .error .UnknownCallNumber

/-- One arm of the `match opcode_kind` dispatch in Interpreter::run. -/
def execOpcode (op : Opcode) (s : VM) : Except ExitStatus VM :=
  match op with
  | .Nop => .ok s
  | .Exit => .error .Success
  | .Call => callOp s
  | .Invoke => invokeOp s
  | .Ret => retOp s
  | .BPush => stackPushNextPrg 1 4 s
  | .SPush => stackPushNextPrg 2 4 s
  | .IPush => stackPushNextPrg 4 4 s
  | .LPush => stackPushNextPrg 8 8 s
  | .Dup => do
    let topValue ← stackTop 4 s
    stackPush 4 topValue s
  | .Dup2 => do
    let topValue ← stackTop 8 s
    stackPush 8 topValue s
  | .Pop => do
    let (_, s1) ← stackPop 4 s
    .ok s1
  | .Pop2 => do
    let (_, s1) ← stackPop 8 s
    .ok s1
  | .Load => do
    let (varI, s1) ← nextPrg 2 s
    loadOp 4 varI s1
  | .Load2 => do
    let (varI, s1) ← nextPrg 2 s
    loadOp 8 varI s1
  | .Store => do
    let (varI, s1) ← nextPrg 2 s
    let (value, s2) ← stackPop 4 s1
    storeOp 4 varI value s2
  | .Store2 => do
    let (varI, s1) ← nextPrg 2 s
    let (value, s2) ← stackPop 8 s1
    storeOp 8 varI value s2
  | .IAdd => calcOp 4 (overflowingAdd (2 ^ 32)) false s
  | .LAdd => calcOp 8 (overflowingAdd (2 ^ 64)) false s
  | .ISub => calcOp 4 (overflowingSub (2 ^ 32)) false s
  | .LSub => calcOp 8 (overflowingSub (2 ^ 64)) false s
  | .IMul => calcOp 4 (overflowingMul (2 ^ 32)) false s
  | .LMul => calcOp 8 (overflowingMul (2 ^ 64)) false s
  | .IDiv => calcOp 4 (overflowingDiv (2 ^ 32)) true s
  | .LDiv => calcOp 8 (overflowingDiv (2 ^ 64)) true s
  | .IEq => cmpOp 4 (fun a b => a == b) s
  | .LEq => cmpOp 8 (fun a b => a == b) s
  | .IOrd => cmpOp 4 (fun a b => a < b) s
  | .LOrd => cmpOp 8 (fun a b => a < b) s
  | .IEqOrd => cmpOp 4 (fun a b => a ≤ b) s
  | .LEqOrd => cmpOp 8 (fun a b => a ≤ b) s
  | .Goto => gotoOp s
  | .If => ifOp s
  | .Unknown => .error .UnknownOpcode

/-- One cycle of the dispatch loop: fetch the opcode byte, decode, execute.
`Except.error` is a loop break with the given exit status. -/
def step (s : VM) : Except ExitStatus VM := do
  let (opcode, s1) ← nextPrg 1 s
  execOpcode (Opcode.fromU8 opcode) s1

/-- Entry-point resolution of Interpreter::run: the usize at `pool_offset`
points at the usize holding the entry pc. -/
def entryPc (bytes : List Nat) : Nat :=
  readBytes bytes (readBytes bytes poolOffset 8) 8

/-- Register initialization and entry-frame push of Interpreter::run: reject an
out-of-range entry pc, then from sp = bp = 0, pc = entry, pp = pool_offset push
the saved base pointer 0 and the sentinel return address `bytecode_len - 1`.
The arena is modelled zero-initialized. -/
def interpInit (bytes : List Nat) : Except ExitStatus VM :=
  if entryPc bytes ≥ bytes.length then .error .BytecodeAccessViolation
  else do
    let s1 ← stackPush 8 0
      { bytecode := bytes, stack := List.replicate maxStackSize 0,
        sp := 0, bp := 0, pc := entryPc bytes, pp := poolOffset }
    stackPush 8 (bytes.length - 1) s1

/-- Errors of the library entry path (constructors as used by src/src/lib.rs and
src/src/bytecode.rs; the enum itself lives in the external rustnutlib crate). -/
inductive RuntimeError where
  | FileError
  | InvalidHeaderSize
  | InvalidMagicNumber
  | IndexOutOfBytecodeRange
deriving DecidableEq

/-- `HEADER_SIZE` from src/src/bytecode.rs. -/
def HEADER_SIZE : Nat := 128

/-- `MAGIC_NUMBER` from src/src/bytecode.rs. -/
def MAGIC_NUMBER : List Nat := [0x43, 0x48, 0x45, 0x53, 0x43, 0x43, 0x42, 0x43]

/-- `Bytecode::get_bytes`: a byte range, `IndexOutOfBytecodeRange` when it does
not fit. -/
def getBytes (bytes : List Nat) (rangeBegin rangeLen : Nat) :
    Except RuntimeError (List Nat) :=
  if rangeBegin + rangeLen > bytes.length then .error .IndexOutOfBytecodeRange
  else .ok ((bytes.drop rangeBegin).take rangeLen)

/-- `Bytecode::match_bytes`: compare a range with a pattern; a range error
counts as a mismatch. -/
def matchBytes (bytes : List Nat) (rangeBegin rangeLen : Nat)
    (pattern : List Nat) : Bool :=
  match getBytes bytes rangeBegin rangeLen with
  | .ok v => pattern == v
  | .error _ => false

/-- `Bytecode::print`: dumps the magic number, code name and version ranges; it
fails (propagating `IndexOutOfBytecodeRange`) when one of them is out of range. -/
def bytecodePrint (bytes : List Nat) : Except RuntimeError Unit := do
  let _ ← getBytes bytes 0 8
  let _ ← getBytes bytes 8 8
  let _ ← getBytes bytes 16 3
  .ok ()

/-- `ChesVM::run` on an already-read byte buffer: print the header dump (which
can fail first), then the header-size check, then the magic-number check;
`Except.ok ()` means the container proceeds to execution. -/
def chesVMRun (bytes : List Nat) : Except RuntimeError Unit := do
  bytecodePrint bytes
  if HEADER_SIZE > bytes.length then .error .InvalidHeaderSize
  else if matchBytes bytes 0 8 MAGIC_NUMBER then .ok ()
  else .error .InvalidMagicNumber

/-- Frame invariant maintained by the dispatch loop: the guard region fits
below sp and sp stays within the arena capacity, whose byte length is fixed. -/
def VMInv (s : VM) : Prop :=
  s.bp + 2 * ptrSize ≤ s.sp ∧ s.sp ≤ maxStackSize ∧ s.stack.length = maxStackSize

/-- What a non-call, non-return step leaves untouched: the registers bp,
the bytecode, the arena length, and every stack byte below `bp + 2 * ptrSize`
(in particular the current frame's saved bp and return address). -/
def FramePres (s s' : VM) : Prop :=
  s'.bp = s.bp ∧ s'.bytecode = s.bytecode ∧ s'.stack.length = s.stack.length ∧
  ∀ q n, q + n ≤ s.bp + 2 * ptrSize → readBytes s'.stack q n = readBytes s.stack q n

/-- Executions of the dispatch loop that keep the current activation frame at
the bottom: chains of successful steps in which every dispatched Invoke (0x03)
is closed by the matching Ret (0x04) before the chain ends. -/
inductive StepsBal : VM → VM → Prop where
  | refl (s : VM) : StepsBal s s
  | cons (s s' s'' : VM) (hop3 : opcodeAt s ≠ 3) (hop4 : opcodeAt s ≠ 4)
      (hstep : step s = .ok s') (hrest : StepsBal s' s'') : StepsBal s s''
  | call (s s1 s2 s3 s4 : VM) (hop : opcodeAt s = 3) (hstep : step s = .ok s1)
      (hin : StepsBal s1 s2) (hret : opcodeAt s2 = 4) (hstepr : step s2 = .ok s3)
      (hrest : StepsBal s3 s4) : StepsBal s s4

/-- Program counter after one step, when the step does not terminate. -/
def stepPc (s : VM) : Option Nat :=
  match step s with
  | .ok t => some t.pc
  | .error _ => none

/-- Base pointer after one step, when the step does not terminate. -/
def stepBp (s : VM) : Option Nat :=
  match step s with
  | .ok t => some t.bp
  | .error _ => none

/-- Exit status of a terminating step. -/
def stepErr (s : VM) : Option ExitStatus :=
  match step s with
  | .ok _ => none
  | .error e => some e

/-- Base pointer and stack pointer produced by interpreter initialization. -/
def initInfo (bytes : List Nat) : Option (Nat × Nat) :=
  match interpInit bytes with
  | .ok t => some (t.bp, t.sp)
  | .error _ => none

/-- A state about to dispatch IF (0x20) with a zero w32 condition on top. -/
def c1s : VM :=
  { bytecode := [0x20, 0xAA, 0xBB], stack := List.replicate 20 0,
    sp := 20, bp := 0, pc := 0, pp := 128 }

/-- A container whose pool slot 0 points at descriptor {start 100, var_len 2,
arg_len 1} (value address 136), with an INVOKE of pool index 0 at byte 147. -/
def c2bytes : List Nat :=
  MAGIC_NUMBER ++ List.replicate 120 0 ++
  [136, 0, 0, 0, 0, 0, 0, 0] ++
  [100, 0, 0, 0, 0, 0, 0, 0] ++
  [2, 0] ++
  [1] ++
  [0x03] ++
  [0, 0, 0, 0, 0, 0, 0, 0]

/-- A state about to dispatch the INVOKE of c2bytes, entry frame below one
w32 argument with value 7. -/
def c2s : VM :=
  { bytecode := c2bytes,
    stack := List.replicate 16 0 ++ [7, 0, 0, 0] ++ List.replicate 1004 0,
    sp := 20, bp := 0, pc := 147, pp := 128 }

/-- Like c2bytes but the descriptor asks for var_len 300, arg_len 0: the
locals reservation would move sp to 32 + 1200, past the 1024-byte capacity. -/
def c8bytes : List Nat :=
  MAGIC_NUMBER ++ List.replicate 120 0 ++
  [136, 0, 0, 0, 0, 0, 0, 0] ++
  [100, 0, 0, 0, 0, 0, 0, 0] ++
  [44, 1] ++
  [0] ++
  [0x03] ++
  [0, 0, 0, 0, 0, 0, 0, 0]

/-- A state about to dispatch the INVOKE of c8bytes. -/
def c8s : VM :=
  { bytecode := c8bytes, stack := List.replicate 32 0,
    sp := 16, bp := 0, pc := 147, pp := 128 }

/-- A valid container (magic number, 128-byte header) whose entry-point slot at
128 points at offset 136, where the entry pc 1 is stored. -/
def c3bytes : List Nat :=
  MAGIC_NUMBER ++ List.replicate 120 0 ++
  [136, 0, 0, 0, 0, 0, 0, 0] ++
  [1, 0, 0, 0, 0, 0, 0, 0]

/-- A state about to dispatch IADD (0x11) on operands left = u32::MAX (deeper)
and right = 1 (top). -/
def c5s : VM :=
  { bytecode := [0x11],
    stack := List.replicate 16 0 ++ [255, 255, 255, 255, 1, 0, 0, 0],
    sp := 24, bp := 0, pc := 0, pp := 128 }

/-- A state about to dispatch IDIV (0x17) on left = 5, right = 0. -/
def c6s : VM :=
  { bytecode := [0x17],
    stack := List.replicate 16 0 ++ [5, 0, 0, 0, 0, 0, 0, 0],
    sp := 24, bp := 0, pc := 0, pp := 128 }

/-- Like c2bytes but with a RET opcode at the descriptor's start address 100. -/
def c4bytes : List Nat :=
  MAGIC_NUMBER ++ List.replicate 92 0 ++
  [0x04] ++ List.replicate 27 0 ++
  [136, 0, 0, 0, 0, 0, 0, 0] ++
  [100, 0, 0, 0, 0, 0, 0, 0] ++
  [2, 0] ++ [1] ++ [0x03] ++ [0, 0, 0, 0, 0, 0, 0, 0]

/-- A state about to dispatch the INVOKE of c4bytes (the invoked function body
returns immediately). -/
def c4s0 : VM :=
  { bytecode := c4bytes,
    stack := List.replicate 16 0 ++ [7, 0, 0, 0] ++ List.replicate 1004 0,
    sp := 20, bp := 0, pc := 147, pp := 128 }

/-- A state with sp strictly below the frame guard `bp + 2 * ptrSize`, on which
every SAFE stack access must refuse. -/
def c7s : VM :=
  { bytecode := [0x0b], stack := List.replicate 16 0,
    sp := 12, bp := 0, pc := 0, pp := 128 }

/-- The state after the INVOKE of c4s0: callee frame with saved bp 0, return
address 156, argument 7 in slot 0 and one reserved local slot. -/
def c4s1 : VM :=
  { bytecode := c4bytes,
    stack := List.replicate 24 0 ++ [156, 0, 0, 0, 0, 0, 0, 0] ++ [7, 0, 0, 0] ++
      List.replicate 988 0,
    sp := 40, bp := 16, pc := 100, pp := 147 }

/-- The arena contents after the two entry-frame pushes of Interpreter::run. -/
def initStack (bytes : List Nat) : List Nat :=
  writeBytes (writeBytes (List.replicate maxStackSize 0) 0 8 0) 8 8
    (bytes.length - 1)

theorem writeBytes_length (n : Nat) :
    ∀ (m : List Nat) (pos v : Nat), (writeBytes m pos n v).length = m.length := by
  induction n with
  | zero => intro m pos v; rfl
  | succ k ih => intro m pos v; rw [writeBytes, ih, List.length_set]

theorem getD_writeBytes_lt (n : Nat) :
    ∀ (m : List Nat) (pos v j : Nat), j < pos →
      (writeBytes m pos n v).getD j 0 = m.getD j 0 := by
  induction n with
  | zero => intro m pos v j _; rfl
  | succ k ih =>
    intro m pos v j hj
    rw [writeBytes, ih _ _ _ _ (by omega)]
    rw [List.getD_eq_getElem?_getD, List.getD_eq_getElem?_getD,
      List.getElem?_set_ne (by omega)]

theorem readBytes_congr (n : Nat) :
    ∀ (m m' : List Nat) (q : Nat),
      (∀ j, q ≤ j → j < q + n → m'.getD j 0 = m.getD j 0) →
      readBytes m' q n = readBytes m q n := by
  induction n with
  | zero => intro m m' q _; rfl
  | succ k ih =>
    intro m m' q h
    rw [readBytes, readBytes, h q (by omega) (by omega),
      ih m m' (q + 1) (fun j h1 h2 => h j (by omega) (by omega))]

theorem readBytes_writeBytes_low {m : List Nat} {pos n v q k : Nat}
    (h : q + k ≤ pos) :
    readBytes (writeBytes m pos n v) q k = readBytes m q k := by
  exact readBytes_congr k m _ q
    (fun j h1 h2 => getD_writeBytes_lt n m pos v j (by omega))

theorem readBytes_writeBytes_self (n : Nat) :
    ∀ (m : List Nat) (pos v : Nat), pos + n ≤ m.length →
      readBytes (writeBytes m pos n v) pos n = v % 256 ^ n := by
  induction n with
  | zero => intro m pos v _; simp [readBytes, Nat.mod_one]
  | succ k ih =>
    intro m pos v h
    rw [writeBytes, readBytes]
    have h1 : (writeBytes (m.set pos (v % 256)) (pos + 1) k (v / 256)).getD pos 0
        = v % 256 := by
      rw [getD_writeBytes_lt _ _ _ _ _ (by omega), List.getD_eq_getElem?_getD,
        List.getElem?_set_eq_of_lt _ (by omega)]
      rfl
    have h2 : readBytes (writeBytes (m.set pos (v % 256)) (pos + 1) k (v / 256))
        (pos + 1) k = v / 256 % 256 ^ k := by
      apply ih
      rw [List.length_set]; omega
    rw [h1, h2, pow_succ, mul_comm (256 ^ k) 256, Nat.mod_mul]

theorem readBytes_lt_of_bytes {m : List Nat} (hm : ∀ b ∈ m, b < 256) :
    ∀ (n q : Nat), readBytes m q n < 256 ^ n := by
  intro n
  induction n with
  | zero => intro q; simp [readBytes]
  | succ k ih =>
    intro q
    rw [readBytes]
    have h1 : m.getD q 0 < 256 := by
      rcases Nat.lt_or_ge q m.length with h | h
      · have he : m.getD q 0 = m[q] := by
          rw [List.getD_eq_getElem?_getD, List.getElem?_eq_getElem h]
          rfl
        rw [he]
        exact hm _ (List.getElem_mem h)
      · rw [List.getD_eq_default _ _ h]; omega
    have h2 := ih (q + 1)
    calc m.getD q 0 + 256 * readBytes m (q + 1) k
        ≤ 255 + 256 * readBytes m (q + 1) k := by omega
      _ < 256 ^ (k + 1) := by rw [pow_succ]; omega

theorem nextPrg_eq_ok {n : Nat} {s : VM} {r : Nat × VM} :
    nextPrg n s = .ok r ↔
      s.pc + n ≤ s.bytecode.length ∧
      r = (readBytes s.bytecode s.pc n, { s with pc := s.pc + n }) := by
  unfold nextPrg
  split
  next h =>
    exact ⟨fun hc => Except.noConfusion hc, fun ⟨h1, _⟩ => absurd h1 (by omega)⟩
  next h =>
    constructor
    · intro hc
      injection hc with hc
      exact ⟨by omega, hc.symm⟩
    · intro ⟨_, h2⟩
      rw [h2]

theorem nextPool_eq_ok {n : Nat} {s : VM} {r : Nat × VM} :
    nextPool n s = .ok r ↔
      s.pp + n ≤ s.bytecode.length ∧
      r = (readBytes s.bytecode s.pp n, { s with pp := s.pp + n }) := by
  unfold nextPool
  split
  next h =>
    exact ⟨fun hc => Except.noConfusion hc, fun ⟨h1, _⟩ => absurd h1 (by omega)⟩
  next h =>
    constructor
    · intro hc
      injection hc with hc
      exact ⟨by omega, hc.symm⟩
    · intro ⟨_, h2⟩
      rw [h2]

theorem jumpPrgTo_eq_ok {i : Nat} {s s' : VM} :
    jumpPrgTo i s = .ok s' ↔ i ≤ s.bytecode.length ∧ s' = { s with pc := i } := by
  unfold jumpPrgTo
  split
  next h =>
    exact ⟨fun hc => Except.noConfusion hc, fun ⟨h1, _⟩ => absurd h1 (by omega)⟩
  next h =>
    constructor
    · intro hc
      injection hc with hc
      exact ⟨by omega, hc.symm⟩
    · intro ⟨_, h2⟩
      rw [h2]

theorem jumpPoolTo_eq_ok {i : Nat} {s s' : VM} :
    jumpPoolTo i s = .ok s' ↔ i ≤ s.bytecode.length ∧ s' = { s with pp := i } := by
  unfold jumpPoolTo
  split
  next h =>
    exact ⟨fun hc => Except.noConfusion hc, fun ⟨h1, _⟩ => absurd h1 (by omega)⟩
  next h =>
    constructor
    · intro hc
      injection hc with hc
      exact ⟨by omega, hc.symm⟩
    · intro ⟨_, h2⟩
      rw [h2]

theorem jumpStackTo_eq_ok {i : Nat} {s s' : VM} :
    jumpStackTo i s = .ok s' ↔ i ≤ maxStackSize ∧ s' = { s with sp := i } := by
  unfold jumpStackTo
  split
  next h =>
    exact ⟨fun hc => Except.noConfusion hc, fun ⟨h1, _⟩ => absurd h1 (by omega)⟩
  next h =>
    constructor
    · intro hc
      injection hc with hc
      exact ⟨by omega, hc.symm⟩
    · intro ⟨_, h2⟩
      rw [h2]

theorem stackPush_eq_ok {w v : Nat} {s s' : VM} :
    stackPush w v s = .ok s' ↔
      s.sp + w ≤ maxStackSize ∧
      s' = { s with stack := writeBytes s.stack s.sp w v, sp := s.sp + w } := by
  unfold stackPush
  split
  next h =>
    exact ⟨fun hc => Except.noConfusion hc, fun ⟨h1, _⟩ => absurd h1 (by omega)⟩
  next h =>
    constructor
    · intro hc
      injection hc with hc
      exact ⟨by omega, hc.symm⟩
    · intro ⟨_, h2⟩
      rw [h2]

theorem rawStackPop_eq_ok {w : Nat} {s : VM} {r : Nat × VM} :
    rawStackPop w s = .ok r ↔
      w ≤ s.sp ∧ r = (readBytes s.stack (s.sp - w) w, { s with sp := s.sp - w }) := by
  unfold rawStackPop
  split
  next h =>
    exact ⟨fun hc => Except.noConfusion hc, fun ⟨h1, _⟩ => absurd h1 (by omega)⟩
  next h =>
    constructor
    · intro hc
      injection hc with hc
      exact ⟨by omega, hc.symm⟩
    · intro ⟨_, h2⟩
      rw [h2]

theorem stackPop_eq_ok {w : Nat} {s : VM} {r : Nat × VM} :
    stackPop w s = .ok r ↔
      s.bp + 2 * ptrSize + w ≤ s.sp ∧
      r = (readBytes s.stack (s.sp - w) w, { s with sp := s.sp - w }) := by
  unfold stackPop
  split
  next h =>
    exact ⟨fun hc => Except.noConfusion hc, fun ⟨h1, _⟩ => absurd h1 (by omega)⟩
  next h =>
    rw [rawStackPop_eq_ok]
    constructor
    · intro ⟨_, h2⟩
      exact ⟨by omega, h2⟩
    · intro ⟨h1, h2⟩
      exact ⟨by omega, h2⟩

theorem stackTop_eq_ok {w : Nat} {s : VM} {v : Nat} :
    stackTop w s = .ok v ↔
      s.bp + 2 * ptrSize + w ≤ s.sp ∧ v = readBytes s.stack (s.sp - w) w := by
  unfold stackTop
  split
  next h =>
    exact ⟨fun hc => Except.noConfusion hc, fun ⟨h1, _⟩ => absurd h1 (by omega)⟩
  next h =>
    split
    next h2 =>
      exact ⟨fun hc => Except.noConfusion hc, fun ⟨h1, _⟩ => absurd h1 (by omega)⟩
    next h2 =>
      constructor
      · intro hc
        injection hc with hc
        exact ⟨by omega, hc.symm⟩
      · intro ⟨_, h3⟩
        rw [h3]

theorem varTableDiff_eq_ok {w varI : Nat} {s : VM} {d : Nat} :
    varTableDiff w varI s = .ok d ↔
      s.bp + 2 * ptrSize ≤ s.sp ∧ 4 * varI + w ≤ s.sp - s.bp - 2 * ptrSize ∧
      d = s.sp - s.bp - 2 * ptrSize - varI * 4 := by
  unfold varTableDiff
  split
  next h =>
    exact ⟨fun hc => Except.noConfusion hc, fun ⟨h1, _⟩ => absurd h1 (by omega)⟩
  next h =>
    split
    next h2 =>
      exact ⟨fun hc => Except.noConfusion hc, fun ⟨_, h3, _⟩ => absurd h3 (by omega)⟩
    next h2 =>
      constructor
      · intro hc
        injection hc with hc
        exact ⟨by omega, by omega, hc.symm⟩
      · intro ⟨_, _, h3⟩
        rw [h3]

theorem exceptBind_ok_inv {α β : Type} {x : Except ExitStatus α}
    {f : α → Except ExitStatus β} {b : β} (h : (x >>= f) = .ok b) :
    ∃ a, x = .ok a ∧ f a = .ok b := by
  cases x with
  | error e => exact absurd h (by simp [Bind.bind, Except.bind])
  | ok a => exact ⟨a, rfl, by simpa [Bind.bind, Except.bind] using h⟩

theorem exceptBind_ok {α β : Type} (a : α) (f : α → Except ExitStatus β) :
    (Except.ok a >>= f) = f a := rfl

theorem bytecodePrint_err {bytes : List Nat} (h : bytes.length < 19) :
    bytecodePrint bytes = .error .IndexOutOfBytecodeRange := by
  unfold bytecodePrint getBytes
  split_ifs <;> first | rfl | omega

theorem bytecodePrint_ok {bytes : List Nat} (h : 19 ≤ bytes.length) :
    bytecodePrint bytes = .ok () := by
  unfold bytecodePrint getBytes
  split_ifs <;> first | rfl | omega

/-- Claim C9, counterexample: the empty container is shorter than 128 bytes but
ChesVM::run rejects it with IndexOutOfBytecodeRange (the header dump runs and
fails before the header-size check), not with InvalidHeaderSize. -/
theorem c9_counterexample :
    chesVMRun [] = .error .IndexOutOfBytecodeRange ∧
    chesVMRun [] ≠ .error .InvalidHeaderSize := by
  constructor
  · rfl
  · intro h
    cases Except.error.inj h

/-- Claim C9 (amended): ChesVM::run first runs the header dump, which fails
with IndexOutOfBytecodeRange when the container is shorter than 19 bytes; a
container of 19..127 bytes fails with InvalidHeaderSize; a container of at
least 128 bytes whose first 8 bytes differ from the magic constant fails with
InvalidMagicNumber; a container passing both checks proceeds to execution; the
header-size check is performed before the magic-number check. -/
theorem c9_validation (bytes : List Nat) :
    (bytes.length < 19 → chesVMRun bytes = .error .IndexOutOfBytecodeRange) ∧
    (19 ≤ bytes.length → bytes.length < 128 →
      chesVMRun bytes = .error .InvalidHeaderSize) ∧
    (128 ≤ bytes.length → matchBytes bytes 0 8 MAGIC_NUMBER = false →
      chesVMRun bytes = .error .InvalidMagicNumber) ∧
    (128 ≤ bytes.length → matchBytes bytes 0 8 MAGIC_NUMBER = true →
      chesVMRun bytes = .ok ()) := by
  refine ⟨fun h => ?_, fun h1 h2 => ?_, fun h1 h2 => ?_, fun h1 h2 => ?_⟩
  · unfold chesVMRun
    rw [bytecodePrint_err h]
    rfl
  · unfold chesVMRun
    rw [bytecodePrint_ok h1]
    show (if HEADER_SIZE > bytes.length then _ else _ : Except RuntimeError Unit) = _
    rw [if_pos (by unfold HEADER_SIZE; omega)]
  · unfold chesVMRun
    rw [bytecodePrint_ok (by omega)]
    show (if HEADER_SIZE > bytes.length then _ else _ : Except RuntimeError Unit) = _
    rw [if_neg (by unfold HEADER_SIZE; omega),
      if_neg (by rw [h2]; exact Bool.false_ne_true)]
  · unfold chesVMRun
    rw [bytecodePrint_ok (by omega)]
    show (if HEADER_SIZE > bytes.length then _ else _ : Except RuntimeError Unit) = _
    rw [if_neg (by unfold HEADER_SIZE; omega), if_pos (by rw [h2])]

/-- Claim C9, witness: each branch of the amended validation order on a
concrete container. -/
theorem c9_validation_witness :
    chesVMRun [0] = .error .IndexOutOfBytecodeRange ∧
    chesVMRun (List.replicate 20 0) = .error .InvalidHeaderSize ∧
    chesVMRun (List.replicate 128 0) = .error .InvalidMagicNumber ∧
    chesVMRun (MAGIC_NUMBER ++ List.replicate 120 0) = .ok () := by
  refine ⟨(c9_validation [0]).1 (by decide), ?_, ?_, ?_⟩
  · exact (c9_validation (List.replicate 20 0)).2.1 (by simp) (by simp)
  · exact (c9_validation (List.replicate 128 0)).2.2.1 (by simp) (by decide)
  · exact (c9_validation (MAGIC_NUMBER ++ List.replicate 120 0)).2.2.2
      (by simp [MAGIC_NUMBER]) (by decide)

theorem step_eq_exec {s : VM} (h : s.pc < s.bytecode.length) :
    step s = execOpcode (Opcode.fromU8 (opcodeAt s)) { s with pc := s.pc + 1 } := by
  unfold step nextPrg
  rw [if_neg (by omega)]
  rfl

theorem opcodeAt_lt_length {s : VM} (h : opcodeAt s ≠ 0) :
    s.pc < s.bytecode.length := by
  by_contra hc
  apply h
  unfold opcodeAt readBytes readBytes
  rw [List.getD_eq_default]
  omega

theorem stackPop_eq_err {w : Nat} {s : VM} :
    stackPop w s = .error .StackAccessViolation ↔
      s.sp < s.bp + 2 * ptrSize + w := by
  unfold stackPop rawStackPop
  split
  next h => exact ⟨fun _ => h, fun _ => rfl⟩
  next h =>
    split
    next h2 => exact absurd h2 (by omega)
    next h2 => exact ⟨fun hc => Except.noConfusion hc, fun hc => absurd hc (by omega)⟩

theorem loadOp_guard {w varI : Nat} {s : VM} (h : s.sp < s.bp + 2 * ptrSize) :
    loadOp w varI s = .error .StackAccessViolation := by
  unfold loadOp varTableDiff
  rw [if_pos h]
  rfl

theorem storeOp_guard {w varI v : Nat} {s : VM} (h : s.sp < s.bp + 2 * ptrSize) :
    storeOp w varI v s = .error .StackAccessViolation := by
  unfold storeOp varTableDiff
  rw [if_pos h]
  rfl

/-- Claim C7: the SAFE pop of a 32- or 64-bit value fails with
StackAccessViolation exactly when `sp < bp + 2 * ptrSize + sizeof(W)`;
otherwise it returns the top value and retreats sp by sizeof(W); and the frame
guard `sp ≥ bp + 2 * ptrSize` is asserted by every SAFE pop, load and store
(all of them fail with StackAccessViolation whenever it is violated). -/
theorem c7_safe_pop_guard (s : VM) :
    ((stackPop 4 s = .error .StackAccessViolation) ↔ s.sp < s.bp + 2 * ptrSize + 4) ∧
    (s.bp + 2 * ptrSize + 4 ≤ s.sp →
      stackPop 4 s = .ok (readBytes s.stack (s.sp - 4) 4, { s with sp := s.sp - 4 })) ∧
    ((stackPop 8 s = .error .StackAccessViolation) ↔ s.sp < s.bp + 2 * ptrSize + 8) ∧
    (s.bp + 2 * ptrSize + 8 ≤ s.sp →
      stackPop 8 s = .ok (readBytes s.stack (s.sp - 8) 8, { s with sp := s.sp - 8 })) ∧
    (s.sp < s.bp + 2 * ptrSize → ∀ w varI v,
      stackPop w s = .error .StackAccessViolation ∧
      loadOp w varI s = .error .StackAccessViolation ∧
      storeOp w varI v s = .error .StackAccessViolation) := by
  refine ⟨stackPop_eq_err, fun h => ?_, stackPop_eq_err, fun h => ?_, fun h w varI v => ?_⟩
  · exact stackPop_eq_ok.mpr ⟨h, rfl⟩
  · exact stackPop_eq_ok.mpr ⟨h, rfl⟩
  · exact ⟨stackPop_eq_err.mpr (by omega), loadOp_guard h, storeOp_guard h⟩

/-- Claim C7, witness: at a state with sp at the guard boundary every safe
access refuses, and at a state with room the pop succeeds. -/
theorem c7_safe_pop_guard_witness :
    stackPop 4 c7s = .error .StackAccessViolation ∧
    loadOp 4 0 c7s = .error .StackAccessViolation ∧
    storeOp 4 0 5 c7s = .error .StackAccessViolation ∧
    stackPop 4 c5s = .ok (1, { c5s with sp := 20 }) := by
  refine ⟨((c7_safe_pop_guard c7s).1).mpr (by decide), ?_, ?_, ?_⟩
  · exact ((c7_safe_pop_guard c7s).2.2.2.2 (by decide) 4 0 5).2.1
  · exact ((c7_safe_pop_guard c7s).2.2.2.2 (by decide) 4 0 5).2.2
  · exact (c7_safe_pop_guard c5s).2.1 (by decide)

/-- Claim C1, counterexample: at a state dispatching IF with a zero condition
on top, the interpreter leaves pc one byte past the opcode (at the first offset
byte), not three bytes past it as the claim requires. -/
theorem c1_counterexample : stepPc c1s = some 1 ∧ stepPc c1s ≠ some 3 := by
  exact ⟨by decide, by decide⟩

/-- Claim C1 (amended): when IF pops a w32 condition equal to zero, the 2-byte
inline offset is NOT read: the step succeeds with sp retreated by 4 and pc
advanced only past the opcode byte, so the offset bytes will be decoded as the
next instruction. -/
theorem c1_if_zero_skips_offset (s : VM)
    (hop : opcodeAt s = 0x20) (hpc : s.pc < s.bytecode.length)
    (hguard : s.bp + 2 * ptrSize + 4 ≤ s.sp)
    (hcond : readBytes s.stack (s.sp - 4) 4 = 0) :
    step s = .ok { s with sp := s.sp - 4, pc := s.pc + 1 } := by
  rw [step_eq_exec hpc, hop]
  show ifOp _ = _
  unfold ifOp
  rw [show stackPop 4 { s with pc := s.pc + 1 } =
      .ok (0, { s with pc := s.pc + 1, sp := s.sp - 4 }) from
    stackPop_eq_ok.mpr ⟨hguard, by
      show (0, _) = (readBytes s.stack (s.sp - 4) 4, _)
      rw [hcond]⟩, exceptBind_ok]
  show (if (0 : Nat) ≠ 0 then gotoOp { s with pc := s.pc + 1, sp := s.sp - 4 }
      else Except.ok { s with pc := s.pc + 1, sp := s.sp - 4 }) =
    Except.ok { s with sp := s.sp - 4, pc := s.pc + 1 }
  rw [if_neg (by omega)]

/-- Claim C1, witness: the amended IF behavior at the concrete state c1s. -/
theorem c1_if_zero_skips_offset_witness :
    step c1s = .ok { c1s with sp := 16, pc := 1 } :=
  c1_if_zero_skips_offset c1s (by decide) (by decide) (by decide) (by decide)

/-- Claim C3, counterexample: on a valid container with entry pc 1, after the
entry-frame push the interpreter has bp = 0 and sp = 16; the claim's final
`bp := sp` assignment (which would give bp = 16) does not happen. -/
theorem c3_counterexample :
    initInfo c3bytes = some (0, 16) ∧ initInfo c3bytes ≠ some (16, 16) := by
  exact ⟨by decide, by decide⟩

/-- Claim C3 (amended): after entry-point resolution succeeds, initialization
pushes saved base pointer 0 and the sentinel return address `|bytecode| - 1`
(as pointer-width words at stack offsets 0 and 8), sets pc to entry_pc, and
leaves bp at its initialization value 0 — the byte offset of the saved base
pointer, two pointer-width words BELOW the resulting sp = 16 — before entering
the dispatch loop. -/
theorem c3_init_frame (bytes : List Nat) (h : entryPc bytes < bytes.length) :
    interpInit bytes = .ok
      { bytecode := bytes, stack := initStack bytes,
        sp := 2 * ptrSize, bp := 0, pc := entryPc bytes, pp := poolOffset } ∧
    readBytes (initStack bytes) 0 8 = 0 ∧
    readBytes (initStack bytes) 8 8 = (bytes.length - 1) % 2 ^ 64 := by
  refine ⟨?_, ?_, ?_⟩
  · unfold interpInit
    rw [if_neg (by omega)]
    rw [show stackPush 8 0
        { bytecode := bytes, stack := List.replicate maxStackSize 0,
          sp := 0, bp := 0, pc := entryPc bytes, pp := poolOffset } =
        .ok { bytecode := bytes,
              stack := writeBytes (List.replicate maxStackSize 0) 0 8 0,
              sp := 8, bp := 0, pc := entryPc bytes, pp := poolOffset } from
      stackPush_eq_ok.mpr ⟨by simp [maxStackSize], rfl⟩, exceptBind_ok]
    exact stackPush_eq_ok.mpr ⟨by simp [maxStackSize], rfl⟩
  · rw [show readBytes (initStack bytes) 0 8
        = readBytes (writeBytes (List.replicate maxStackSize 0) 0 8 0) 0 8 from
      readBytes_writeBytes_low (by omega)]
    rw [readBytes_writeBytes_self 8 _ 0 0 (by simp [maxStackSize])]
    norm_num
  · unfold initStack
    rw [readBytes_writeBytes_self 8 _ 8 _
      (by rw [writeBytes_length]; simp [maxStackSize])]
    norm_num

/-- Claim C3, witness: initialization on the concrete container c3bytes. -/
theorem c3_init_frame_witness :
    interpInit c3bytes = .ok
      { bytecode := c3bytes, stack := initStack c3bytes,
        sp := 2 * ptrSize, bp := 0, pc := entryPc c3bytes, pp := poolOffset } ∧
    readBytes (initStack c3bytes) 0 8 = 0 ∧
    readBytes (initStack c3bytes) 8 8 = (c3bytes.length - 1) % 2 ^ 64 :=
  c3_init_frame c3bytes (by decide)

theorem exceptBind_err {α β : Type} (e : ExitStatus) (f : α → Except ExitStatus β) :
    ((Except.error e : Except ExitStatus α) >>= f) = .error e := rfl

theorem step_calc {s : VM} {b w : Nat} {f : Nat → Nat → Nat × Bool} {cd : Bool}
    (hop : opcodeAt s = b) (hb : 0 < b)
    (hexec : execOpcode (Opcode.fromU8 b) { s with pc := s.pc + 1 }
      = calcOp w f cd { s with pc := s.pc + 1 }) :
    step s = calcOp w f cd { s with pc := s.pc + 1 } := by
  rw [step_eq_exec (opcodeAt_lt_length (by omega)), hop, hexec]

theorem calcOp_char (w : Nat) (f : Nat → Nat → Nat × Bool) (cd : Bool) (s : VM)
    (v : Nat) (o : Bool)
    (hguard : s.bp + 2 * ptrSize + 2 * w ≤ s.sp)
    (hf : f (readBytes s.stack (s.sp - 2 * w) w) (readBytes s.stack (s.sp - w) w) = (v, o)) :
    calcOp w f cd s =
      if cd = true ∧ readBytes s.stack (s.sp - w) w = 0 then .error .DivideByZero
      else if o = true then .error .ArithmeticOverflow
      else stackPush w v { s with sp := s.sp - 2 * w } := by
  unfold calcOp
  rw [show stackPop w s
      = .ok (readBytes s.stack (s.sp - w) w, { s with sp := s.sp - w }) from
    stackPop_eq_ok.mpr ⟨by omega, rfl⟩, exceptBind_ok]
  dsimp only
  rw [show stackPop w { s with sp := s.sp - w }
      = .ok (readBytes s.stack (s.sp - 2 * w) w, { s with sp := s.sp - 2 * w }) from
    stackPop_eq_ok.mpr ⟨by dsimp only; omega, by
      show (readBytes s.stack (s.sp - 2 * w) w, ({ s with sp := s.sp - 2 * w } : VM))
        = (readBytes s.stack (s.sp - w - w) w, { s with sp := s.sp - w - w })
      rw [show s.sp - w - w = s.sp - 2 * w from by omega]⟩, exceptBind_ok]
  dsimp only
  rw [hf]

theorem stackPush_error {w v : Nat} {s : VM} {e : ExitStatus}
    (h : stackPush w v s = .error e) : e = .StackOverflow := by
  unfold stackPush at h
  split at h
  · exact (Except.error.inj h).symm
  · exact Except.noConfusion h

theorem stackPop_error {w : Nat} {s : VM} {e : ExitStatus}
    (h : stackPop w s = .error e) : e = .StackAccessViolation := by
  unfold stackPop rawStackPop at h
  split at h
  · exact (Except.error.inj h).symm
  · split at h
    · exact (Except.error.inj h).symm
    · exact Except.noConfusion h

theorem calcOp_div_ne_AO (w m : Nat) (cd : Bool) (s : VM) :
    calcOp w (overflowingDiv m) cd s ≠ .error .ArithmeticOverflow := by
  intro h
  unfold calcOp at h
  cases h1 : stackPop w s with
  | error e =>
    rw [h1, exceptBind_err] at h
    have he := Except.error.inj h
    rw [stackPop_error h1] at he
    exact ExitStatus.noConfusion he
  | ok r =>
    obtain ⟨rv, s1⟩ := r
    rw [h1, exceptBind_ok] at h
    dsimp only at h
    cases h2 : stackPop w s1 with
    | error e =>
      rw [h2, exceptBind_err] at h
      have he := Except.error.inj h
      rw [stackPop_error h2] at he
      exact ExitStatus.noConfusion he
    | ok r2 =>
      obtain ⟨lv, s2⟩ := r2
      rw [h2, exceptBind_ok] at h
      dsimp only at h
      split at h
      · exact ExitStatus.noConfusion (Except.error.inj h)
      · dsimp only [overflowingDiv] at h
        rw [if_neg (by simp)] at h
        exact ExitStatus.noConfusion (stackPush_error h)

/-- Claim C5: for each of IADD/LADD/ISUB/LSUB/IMUL/LMUL/IDIV/LDIV, the operand
popped first (the top value, at sp - sizeof(W)) is the right operand and the
one popped second (at sp - 2 * sizeof(W)) is the left operand; the arithmetic
is checked, overflow terminates the step with ArithmeticOverflow, and on
success the value pushed is left OP right of the same width. -/
theorem c5_arithmetic (s : VM) :
    (opcodeAt s = 0x11 → s.bp + 2 * ptrSize + 8 ≤ s.sp → s.sp ≤ maxStackSize →
      (2 ^ 32 ≤ readBytes s.stack (s.sp - 8) 4 + readBytes s.stack (s.sp - 4) 4 →
        step s = .error .ArithmeticOverflow) ∧
      (readBytes s.stack (s.sp - 8) 4 + readBytes s.stack (s.sp - 4) 4 < 2 ^ 32 →
        step s = .ok { s with
          stack := writeBytes s.stack (s.sp - 8) 4
            (readBytes s.stack (s.sp - 8) 4 + readBytes s.stack (s.sp - 4) 4),
          sp := s.sp - 4, pc := s.pc + 1 })) ∧
    (opcodeAt s = 0x12 → s.bp + 2 * ptrSize + 16 ≤ s.sp → s.sp ≤ maxStackSize →
      (2 ^ 64 ≤ readBytes s.stack (s.sp - 16) 8 + readBytes s.stack (s.sp - 8) 8 →
        step s = .error .ArithmeticOverflow) ∧
      (readBytes s.stack (s.sp - 16) 8 + readBytes s.stack (s.sp - 8) 8 < 2 ^ 64 →
        step s = .ok { s with
          stack := writeBytes s.stack (s.sp - 16) 8
            (readBytes s.stack (s.sp - 16) 8 + readBytes s.stack (s.sp - 8) 8),
          sp := s.sp - 8, pc := s.pc + 1 })) ∧
    (opcodeAt s = 0x13 → s.bp + 2 * ptrSize + 8 ≤ s.sp → s.sp ≤ maxStackSize →
      readBytes s.stack (s.sp - 8) 4 < 2 ^ 32 →
      (readBytes s.stack (s.sp - 8) 4 < readBytes s.stack (s.sp - 4) 4 →
        step s = .error .ArithmeticOverflow) ∧
      (readBytes s.stack (s.sp - 4) 4 ≤ readBytes s.stack (s.sp - 8) 4 →
        step s = .ok { s with
          stack := writeBytes s.stack (s.sp - 8) 4
            (readBytes s.stack (s.sp - 8) 4 - readBytes s.stack (s.sp - 4) 4),
          sp := s.sp - 4, pc := s.pc + 1 })) ∧
    (opcodeAt s = 0x14 → s.bp + 2 * ptrSize + 16 ≤ s.sp → s.sp ≤ maxStackSize →
      readBytes s.stack (s.sp - 16) 8 < 2 ^ 64 →
      (readBytes s.stack (s.sp - 16) 8 < readBytes s.stack (s.sp - 8) 8 →
        step s = .error .ArithmeticOverflow) ∧
      (readBytes s.stack (s.sp - 8) 8 ≤ readBytes s.stack (s.sp - 16) 8 →
        step s = .ok { s with
          stack := writeBytes s.stack (s.sp - 16) 8
            (readBytes s.stack (s.sp - 16) 8 - readBytes s.stack (s.sp - 8) 8),
          sp := s.sp - 8, pc := s.pc + 1 })) ∧
    (opcodeAt s = 0x15 → s.bp + 2 * ptrSize + 8 ≤ s.sp → s.sp ≤ maxStackSize →
      (2 ^ 32 ≤ readBytes s.stack (s.sp - 8) 4 * readBytes s.stack (s.sp - 4) 4 →
        step s = .error .ArithmeticOverflow) ∧
      (readBytes s.stack (s.sp - 8) 4 * readBytes s.stack (s.sp - 4) 4 < 2 ^ 32 →
        step s = .ok { s with
          stack := writeBytes s.stack (s.sp - 8) 4
            (readBytes s.stack (s.sp - 8) 4 * readBytes s.stack (s.sp - 4) 4),
          sp := s.sp - 4, pc := s.pc + 1 })) ∧
    (opcodeAt s = 0x16 → s.bp + 2 * ptrSize + 16 ≤ s.sp → s.sp ≤ maxStackSize →
      (2 ^ 64 ≤ readBytes s.stack (s.sp - 16) 8 * readBytes s.stack (s.sp - 8) 8 →
        step s = .error .ArithmeticOverflow) ∧
      (readBytes s.stack (s.sp - 16) 8 * readBytes s.stack (s.sp - 8) 8 < 2 ^ 64 →
        step s = .ok { s with
          stack := writeBytes s.stack (s.sp - 16) 8
            (readBytes s.stack (s.sp - 16) 8 * readBytes s.stack (s.sp - 8) 8),
          sp := s.sp - 8, pc := s.pc + 1 })) ∧
    (opcodeAt s = 0x17 → s.bp + 2 * ptrSize + 8 ≤ s.sp → s.sp ≤ maxStackSize →
      readBytes s.stack (s.sp - 4) 4 ≠ 0 →
      step s = .ok { s with
        stack := writeBytes s.stack (s.sp - 8) 4
          (readBytes s.stack (s.sp - 8) 4 / readBytes s.stack (s.sp - 4) 4),
        sp := s.sp - 4, pc := s.pc + 1 }) ∧
    (opcodeAt s = 0x18 → s.bp + 2 * ptrSize + 16 ≤ s.sp → s.sp ≤ maxStackSize →
      readBytes s.stack (s.sp - 8) 8 ≠ 0 →
      step s = .ok { s with
        stack := writeBytes s.stack (s.sp - 16) 8
          (readBytes s.stack (s.sp - 16) 8 / readBytes s.stack (s.sp - 8) 8),
        sp := s.sp - 8, pc := s.pc + 1 }) := by
  refine ⟨fun hop hg hcap => ?_, fun hop hg hcap => ?_, fun hop hg hcap hl => ?_,
    fun hop hg hcap hl => ?_, fun hop hg hcap => ?_, fun hop hg hcap => ?_,
    fun hop hg hcap hr0 => ?_, fun hop hg hcap hr0 => ?_⟩
  · rw [@step_calc _ _ 4 (overflowingAdd (2 ^ 32)) false hop (by omega) rfl,
      calcOp_char 4 (overflowingAdd (2 ^ 32)) false _ _ _ (by dsimp only; omega) rfl]
    dsimp only
    have hW : s.sp - 2 * 4 = s.sp - 8 := by omega
    have hV : s.sp - 8 + 4 = s.sp - 4 := by omega
    refine ⟨fun hov => ?_, fun hnov => ?_⟩
    · rw [if_neg (by simp), if_pos (by rw [hW]; exact decide_eq_true hov)]
    · rw [if_neg (by simp), if_neg (by rw [hW]; simp only [decide_eq_true_eq]; omega)]
      apply stackPush_eq_ok.mpr
      refine ⟨by dsimp only; omega, ?_⟩
      dsimp only
      rw [hW, Nat.mod_eq_of_lt hnov, hV]
  · rw [@step_calc _ _ 8 (overflowingAdd (2 ^ 64)) false hop (by omega) rfl,
      calcOp_char 8 (overflowingAdd (2 ^ 64)) false _ _ _ (by dsimp only; omega) rfl]
    dsimp only
    have hW : s.sp - 2 * 8 = s.sp - 16 := by omega
    have hV : s.sp - 16 + 8 = s.sp - 8 := by omega
    refine ⟨fun hov => ?_, fun hnov => ?_⟩
    · rw [if_neg (by simp), if_pos (by rw [hW]; exact decide_eq_true hov)]
    · rw [if_neg (by simp), if_neg (by rw [hW]; simp only [decide_eq_true_eq]; omega)]
      apply stackPush_eq_ok.mpr
      refine ⟨by dsimp only; omega, ?_⟩
      dsimp only
      rw [hW, Nat.mod_eq_of_lt hnov, hV]
  · rw [@step_calc _ _ 4 (overflowingSub (2 ^ 32)) false hop (by omega) rfl,
      calcOp_char 4 (overflowingSub (2 ^ 32)) false _ _ _ (by dsimp only; omega) rfl]
    dsimp only
    have hW : s.sp - 2 * 4 = s.sp - 8 := by omega
    have hV : s.sp - 8 + 4 = s.sp - 4 := by omega
    refine ⟨fun hov => ?_, fun hnov => ?_⟩
    · rw [if_neg (by simp), if_pos (by rw [hW]; exact decide_eq_true hov)]
    · rw [if_neg (by simp), if_neg (by rw [hW]; simp only [decide_eq_true_eq]; omega)]
      apply stackPush_eq_ok.mpr
      refine ⟨by dsimp only; omega, ?_⟩
      dsimp only
      rw [hW, show readBytes s.stack (s.sp - 8) 4 + 2 ^ 32 - readBytes s.stack (s.sp - 4) 4 = 2 ^ 32 + (readBytes s.stack (s.sp - 8) 4 - readBytes s.stack (s.sp - 4) 4) from by omega, Nat.add_mod_left, Nat.mod_eq_of_lt (by omega), hV]
  · rw [@step_calc _ _ 8 (overflowingSub (2 ^ 64)) false hop (by omega) rfl,
      calcOp_char 8 (overflowingSub (2 ^ 64)) false _ _ _ (by dsimp only; omega) rfl]
    dsimp only
    have hW : s.sp - 2 * 8 = s.sp - 16 := by omega
    have hV : s.sp - 16 + 8 = s.sp - 8 := by omega
    refine ⟨fun hov => ?_, fun hnov => ?_⟩
    · rw [if_neg (by simp), if_pos (by rw [hW]; exact decide_eq_true hov)]
    · rw [if_neg (by simp), if_neg (by rw [hW]; simp only [decide_eq_true_eq]; omega)]
      apply stackPush_eq_ok.mpr
      refine ⟨by dsimp only; omega, ?_⟩
      dsimp only
      rw [hW, show readBytes s.stack (s.sp - 16) 8 + 2 ^ 64 - readBytes s.stack (s.sp - 8) 8 = 2 ^ 64 + (readBytes s.stack (s.sp - 16) 8 - readBytes s.stack (s.sp - 8) 8) from by omega, Nat.add_mod_left, Nat.mod_eq_of_lt (by omega), hV]
  · rw [@step_calc _ _ 4 (overflowingMul (2 ^ 32)) false hop (by omega) rfl,
      calcOp_char 4 (overflowingMul (2 ^ 32)) false _ _ _ (by dsimp only; omega) rfl]
    dsimp only
    have hW : s.sp - 2 * 4 = s.sp - 8 := by omega
    have hV : s.sp - 8 + 4 = s.sp - 4 := by omega
    refine ⟨fun hov => ?_, fun hnov => ?_⟩
    · rw [if_neg (by simp), if_pos (by rw [hW]; exact decide_eq_true hov)]
    · rw [if_neg (by simp), if_neg (by rw [hW]; simp only [decide_eq_true_eq]; omega)]
      apply stackPush_eq_ok.mpr
      refine ⟨by dsimp only; omega, ?_⟩
      dsimp only
      rw [hW, Nat.mod_eq_of_lt hnov, hV]
  · rw [@step_calc _ _ 8 (overflowingMul (2 ^ 64)) false hop (by omega) rfl,
      calcOp_char 8 (overflowingMul (2 ^ 64)) false _ _ _ (by dsimp only; omega) rfl]
    dsimp only
    have hW : s.sp - 2 * 8 = s.sp - 16 := by omega
    have hV : s.sp - 16 + 8 = s.sp - 8 := by omega
    refine ⟨fun hov => ?_, fun hnov => ?_⟩
    · rw [if_neg (by simp), if_pos (by rw [hW]; exact decide_eq_true hov)]
    · rw [if_neg (by simp), if_neg (by rw [hW]; simp only [decide_eq_true_eq]; omega)]
      apply stackPush_eq_ok.mpr
      refine ⟨by dsimp only; omega, ?_⟩
      dsimp only
      rw [hW, Nat.mod_eq_of_lt hnov, hV]
  · rw [@step_calc _ _ 4 (overflowingDiv (2 ^ 32)) true hop (by omega) rfl,
      calcOp_char 4 (overflowingDiv (2 ^ 32)) true _ _ _ (by dsimp only; omega) rfl]
    dsimp only
    have hW : s.sp - 2 * 4 = s.sp - 8 := by omega
    have hV : s.sp - 8 + 4 = s.sp - 4 := by omega
    rw [if_neg (by simp [hr0]), if_neg (by simp)]
    apply stackPush_eq_ok.mpr
    refine ⟨by dsimp only; omega, ?_⟩
    dsimp only
    rw [hW, hV]
  · rw [@step_calc _ _ 8 (overflowingDiv (2 ^ 64)) true hop (by omega) rfl,
      calcOp_char 8 (overflowingDiv (2 ^ 64)) true _ _ _ (by dsimp only; omega) rfl]
    dsimp only
    have hW : s.sp - 2 * 8 = s.sp - 16 := by omega
    have hV : s.sp - 16 + 8 = s.sp - 8 := by omega
    rw [if_neg (by simp [hr0]), if_neg (by simp)]
    apply stackPush_eq_ok.mpr
    refine ⟨by dsimp only; omega, ?_⟩
    dsimp only
    rw [hW, hV]

/-- Claim C5, witness: IADD on operands (u32::MAX, 1) terminates with
ArithmeticOverflow. -/
theorem c5_arithmetic_witness :
    step c5s = .error .ArithmeticOverflow := by
  exact ((c5_arithmetic c5s).1 (by decide) (by decide) (by decide)).1 (by decide)

/-- Claim C6: IDIV and LDIV check the right operand for zero before the
overflow check; a zero divisor terminates the step with DivideByZero (never
ArithmeticOverflow). -/
theorem c6_divide_by_zero (s : VM) :
    (opcodeAt s = 0x17 → s.bp + 2 * ptrSize + 8 ≤ s.sp →
      readBytes s.stack (s.sp - 4) 4 = 0 → step s = .error .DivideByZero) ∧
    (opcodeAt s = 0x18 → s.bp + 2 * ptrSize + 16 ≤ s.sp →
      readBytes s.stack (s.sp - 8) 8 = 0 → step s = .error .DivideByZero) := by
  refine ⟨fun hop hg hz => ?_, fun hop hg hz => ?_⟩
  · rw [@step_calc _ _ 4 (overflowingDiv (2 ^ 32)) true hop (by omega) rfl,
      calcOp_char 4 (overflowingDiv (2 ^ 32)) true _ _ _ (by dsimp only; omega) rfl]
    dsimp only
    rw [if_pos ⟨rfl, hz⟩]
  · rw [@step_calc _ _ 8 (overflowingDiv (2 ^ 64)) true hop (by omega) rfl,
      calcOp_char 8 (overflowingDiv (2 ^ 64)) true _ _ _ (by dsimp only; omega) rfl]
    dsimp only
    rw [if_pos ⟨rfl, hz⟩]

/-- Claim C6, witness: IDIV with right operand 0 on the concrete state c6s. -/
theorem c6_divide_by_zero_witness : step c6s = .error .DivideByZero :=
  (c6_divide_by_zero c6s).1 (by decide) (by decide) (by decide)

/-- Claim C10: for IDIV and LDIV the unsigned checked division never reports
overflow: whatever the state, a step dispatching opcode 0x17 or 0x18 cannot
terminate with ArithmeticOverflow (the zero divisor yields DivideByZero, and
otherwise division succeeds or fails for an unrelated reason). -/
theorem c10_idiv_no_overflow (s : VM)
    (hop : opcodeAt s = 0x17 ∨ opcodeAt s = 0x18) :
    step s ≠ .error .ArithmeticOverflow := by
  have hpc : s.pc < s.bytecode.length :=
    opcodeAt_lt_length (by rcases hop with h | h <;> omega)
  rw [step_eq_exec hpc]
  rcases hop with h | h <;> rw [h]
  · exact calcOp_div_ne_AO 4 (2 ^ 32) true _
  · exact calcOp_div_ne_AO 8 (2 ^ 64) true _

/-- Claim C10, witness: the IDIV-by-zero state does not yield
ArithmeticOverflow. -/
theorem c10_idiv_no_overflow_witness : step c6s ≠ .error .ArithmeticOverflow :=
  c10_idiv_no_overflow c6s (Or.inl (by decide))

theorem rawPopN_ok {w : Nat} : ∀ {n : Nat} {s : VM}, w * n ≤ s.sp →
    rawPopN w n s = .ok { s with sp := s.sp - w * n } := by
  intro n
  induction n with
  | zero => intro s _; rfl
  | succ k ih =>
    intro s h
    rw [Nat.mul_succ] at h
    show (rawStackPop w s >>= fun x => match x with | (_, s1) => rawPopN w k s1) = _
    rw [show rawStackPop w s
        = .ok (readBytes s.stack (s.sp - w) w, { s with sp := s.sp - w }) from
      rawStackPop_eq_ok.mpr ⟨by omega, rfl⟩, exceptBind_ok]
    dsimp only
    rw [ih (by dsimp only; omega)]
    dsimp only
    rw [show s.sp - w - w * k = s.sp - w * (k + 1) from by rw [Nat.mul_succ]; omega]

theorem popN_ok {w : Nat} : ∀ {n : Nat} {s : VM},
    (n = 0 ∨ s.bp + 2 * ptrSize + w * n ≤ s.sp) →
    popN w n s = .ok { s with sp := s.sp - w * n } := by
  intro n
  induction n with
  | zero => intro s _; rfl
  | succ k ih =>
    intro s h
    rcases h with h | h
    · exact absurd h (by omega)
    rw [Nat.mul_succ] at h
    show (stackPop w s >>= fun x => match x with | (_, s1) => popN w k s1) = _
    rw [show stackPop w s
        = .ok (readBytes s.stack (s.sp - w) w, { s with sp := s.sp - w }) from
      stackPop_eq_ok.mpr ⟨by omega, rfl⟩, exceptBind_ok]
    dsimp only
    rw [ih (by rcases Nat.eq_zero_or_pos k with hk | hk
               · exact Or.inl hk
               · right
                 dsimp only
                 omega)]
    dsimp only
    rw [show s.sp - w - w * k = s.sp - w * (k + 1) from by rw [Nat.mul_succ]; omega]

theorem pushList_length {w : Nat} : ∀ {vs : List Nat} {s s' : VM},
    pushList w vs s = .ok s' → s'.stack.length = s.stack.length := by
  intro vs
  induction vs with
  | nil =>
    intro s s' h
    cases h
    rfl
  | cons v rest ih =>
    intro s s' h
    obtain ⟨s1, h1, h2⟩ := exceptBind_ok_inv h
    obtain ⟨_, h1b⟩ := stackPush_eq_ok.mp h1
    subst h1b
    rw [ih h2]
    exact writeBytes_length _ _ _ _

theorem range_map_getD {n i : Nat} {f : Nat → Nat} (h : i < n) :
    ((List.range n).map f).getD i 0 = f i := by
  rw [List.getD_eq_getElem?_getD, List.getElem?_map, List.getElem?_range h]
  rfl

theorem pow256_4 : (256 : Nat) ^ 4 = 2 ^ 32 := by norm_num

theorem pow256_8 : (256 : Nat) ^ 8 = 2 ^ 64 := by norm_num

theorem pushList_spec (w : Nat) : ∀ (vs : List Nat) (s : VM),
    s.sp + w * vs.length ≤ maxStackSize → s.stack.length = maxStackSize →
    ∃ s', pushList w vs s = .ok s' ∧
      s'.sp = s.sp + w * vs.length ∧ s'.bp = s.bp ∧ s'.pc = s.pc ∧ s'.pp = s.pp ∧
      s'.bytecode = s.bytecode ∧ s'.stack.length = s.stack.length ∧
      (∀ q n, q + n ≤ s.sp → readBytes s'.stack q n = readBytes s.stack q n) ∧
      (∀ i, i < vs.length → readBytes s'.stack (s.sp + w * i) w
        = vs.getD i 0 % 256 ^ w) := by
  intro vs
  induction vs with
  | nil =>
    intro s _ _
    exact ⟨s, rfl, by simp, rfl, rfl, rfl, rfl, rfl, fun q n _ => rfl,
      fun i hi => absurd hi (by simp)⟩
  | cons v rest ih =>
    intro s hcap hlen
    have hcap1 : s.sp + w ≤ maxStackSize := by
      rw [List.length_cons, Nat.mul_succ] at hcap
      omega
    have hpush : stackPush w v s
        = .ok { s with stack := writeBytes s.stack s.sp w v, sp := s.sp + w } :=
      stackPush_eq_ok.mpr ⟨hcap1, rfl⟩
    obtain ⟨s', hrest, hsp, hbp, hpc, hpp, hbc, hsl, hlow, hslot⟩ :=
      ih { s with stack := writeBytes s.stack s.sp w v, sp := s.sp + w }
        (by dsimp only; rw [List.length_cons, Nat.mul_succ] at hcap; omega)
        (by dsimp only; rw [writeBytes_length]; exact hlen)
    refine ⟨s', ?_, ?_, hbp, hpc, hpp, hbc, ?_, ?_, ?_⟩
    · show (stackPush w v s >>= fun s1 => pushList w rest s1) = .ok s'
      rw [hpush, exceptBind_ok]
      exact hrest
    · rw [hsp]
      dsimp only
      rw [List.length_cons, Nat.mul_succ]
      omega
    · rw [hsl]
      dsimp only
      rw [writeBytes_length]
    · intro q n hq
      rw [hlow q n (by dsimp only; omega)]
      dsimp only
      exact readBytes_writeBytes_low (by omega)
    · intro i hi
      cases i with
      | zero =>
        rw [show s.sp + w * 0 = s.sp from by omega]
        rw [hlow s.sp w (by dsimp only; omega)]
        dsimp only
        rw [readBytes_writeBytes_self w s.stack s.sp v (by omega)]
        rfl
      | succ k =>
        have hk : k < rest.length := by
          rw [List.length_cons] at hi
          omega
        have := hslot k hk
        dsimp only at this
        rw [show s.sp + w * (k + 1) = s.sp + w + w * k from by rw [Nat.mul_succ]; omega]
        rw [this]
        rfl

theorem invokeOp_spec (t : VM) (poolI valueAddr startAddr varLenV argLenV : Nat)
    (hP : readBytes t.bytecode t.pc 8 = poolI)
    (h1 : t.pc + 8 ≤ t.bytecode.length)
    (h2 : poolOffset + poolI * 8 + 8 ≤ t.bytecode.length)
    (hVA : readBytes t.bytecode (poolOffset + poolI * 8) 8 = valueAddr)
    (h3 : valueAddr + 11 ≤ t.bytecode.length)
    (hSA : readBytes t.bytecode valueAddr 8 = startAddr)
    (hVL : readBytes t.bytecode (valueAddr + 8) 2 = varLenV)
    (hAL : readBytes t.bytecode (valueAddr + 10) 1 = argLenV)
    (h4 : argLenV ≤ varLenV)
    (h5 : argLenV * 4 ≤ t.sp)
    (h6 : argLenV = 0 ∨ t.bp + 2 * ptrSize + 4 * argLenV ≤ t.sp)
    (h7 : t.sp - 4 * argLenV + 16 + 4 * varLenV ≤ maxStackSize)
    (h8 : startAddr ≤ t.bytecode.length)
    (hlen : t.stack.length = maxStackSize) :
    ∃ t', invokeOp t = .ok t' ∧
      t'.bp = t.sp - 4 * argLenV ∧
      t'.sp = t.sp - 4 * argLenV + 16 + 4 * varLenV ∧
      t'.pc = startAddr ∧
      t'.pp = valueAddr + 11 ∧
      t'.bytecode = t.bytecode ∧
      t'.stack.length = t.stack.length ∧
      readBytes t'.stack (t.sp - 4 * argLenV) 8 = t.bp % 2 ^ 64 ∧
      readBytes t'.stack (t.sp - 4 * argLenV + 8) 8 = (t.pc + 8) % 2 ^ 64 ∧
      (∀ i, i < argLenV → readBytes t'.stack (t.sp - 4 * argLenV + 16 + 4 * i) 4
        = readBytes t.stack (t.sp - 4 * (argLenV - i)) 4 % 2 ^ 32) ∧
      (∀ q n, q + n ≤ t.sp - 4 * argLenV →
        readBytes t'.stack q n = readBytes t.stack q n) := by
  unfold invokeOp
  rw [show nextPrg 8 t = .ok (poolI, { t with pc := t.pc + 8 }) from
    nextPrg_eq_ok.mpr ⟨by omega, by rw [hP]⟩, exceptBind_ok]
  dsimp only
  rw [show jumpPoolTo (poolOffset + poolI * 8) { t with pc := t.pc + 8 }
      = .ok { t with pc := t.pc + 8, pp := poolOffset + poolI * 8 } from
    jumpPoolTo_eq_ok.mpr ⟨by dsimp only; omega, rfl⟩, exceptBind_ok]
  rw [show nextPool 8 { t with pc := t.pc + 8, pp := poolOffset + poolI * 8 }
      = .ok (valueAddr,
        { t with pc := t.pc + 8, pp := poolOffset + poolI * 8 + 8 }) from
    nextPool_eq_ok.mpr ⟨by dsimp only; omega, by
      show (valueAddr, _) = (readBytes t.bytecode (poolOffset + poolI * 8) 8, _)
      rw [hVA]⟩, exceptBind_ok]
  dsimp only
  rw [show jumpPoolTo valueAddr
        { t with pc := t.pc + 8, pp := poolOffset + poolI * 8 + 8 }
      = .ok { t with pc := t.pc + 8, pp := valueAddr } from
    jumpPoolTo_eq_ok.mpr ⟨by dsimp only; omega, rfl⟩, exceptBind_ok]
  rw [show nextPool 8 { t with pc := t.pc + 8, pp := valueAddr }
      = .ok (startAddr, { t with pc := t.pc + 8, pp := valueAddr + 8 }) from
    nextPool_eq_ok.mpr ⟨by dsimp only; omega, by
      show (startAddr, _) = (readBytes t.bytecode valueAddr 8, _)
      rw [hSA]⟩, exceptBind_ok]
  dsimp only
  rw [show nextPool 2 { t with pc := t.pc + 8, pp := valueAddr + 8 }
      = .ok (varLenV, { t with pc := t.pc + 8, pp := valueAddr + 8 + 2 }) from
    nextPool_eq_ok.mpr ⟨by dsimp only; omega, by
      show (varLenV, _) = (readBytes t.bytecode (valueAddr + 8) 2, _)
      rw [hVL]⟩, exceptBind_ok]
  dsimp only
  rw [show nextPool 1 { t with pc := t.pc + 8, pp := valueAddr + 8 + 2 }
      = .ok (argLenV, { t with pc := t.pc + 8, pp := valueAddr + 8 + 2 + 1 }) from
    nextPool_eq_ok.mpr ⟨by dsimp only; omega, by
      show (argLenV, _) = (readBytes t.bytecode (valueAddr + 8 + 2) 1, _)
      rw [show valueAddr + 8 + 2 = valueAddr + 10 from by omega, hAL]⟩,
    exceptBind_ok]
  dsimp only
  rw [if_neg (by first | (dsimp only; omega) | omega)]
  rw [show popN 4 argLenV
        { t with pc := t.pc + 8, pp := valueAddr + 8 + 2 + 1 }
      = .ok { t with pc := t.pc + 8, pp := valueAddr + 8 + 2 + 1, sp := t.sp - 4 * argLenV } from by
    rw [popN_ok (by dsimp only; omega)], exceptBind_ok]
  dsimp only
  rw [show stackPush 8 t.bp
        { t with pc := t.pc + 8, pp := valueAddr + 8 + 2 + 1, sp := t.sp - 4 * argLenV }
      = .ok { t with pc := t.pc + 8, pp := valueAddr + 8 + 2 + 1, stack := writeBytes t.stack (t.sp - 4 * argLenV) 8 t.bp, sp := t.sp - 4 * argLenV + 8 } from
    stackPush_eq_ok.mpr ⟨by dsimp only; omega, rfl⟩, exceptBind_ok]
  dsimp only
  rw [show stackPush 8 (t.pc + 8)
        { t with pc := t.pc + 8, pp := valueAddr + 8 + 2 + 1, stack := writeBytes t.stack (t.sp - 4 * argLenV) 8 t.bp, sp := t.sp - 4 * argLenV + 8, bp := t.sp - 4 * argLenV }
      = .ok { t with pc := t.pc + 8, pp := valueAddr + 8 + 2 + 1, stack := writeBytes (writeBytes t.stack (t.sp - 4 * argLenV) 8 t.bp) (t.sp - 4 * argLenV + 8) 8 (t.pc + 8), sp := t.sp - 4 * argLenV + 8 + 8, bp := t.sp - 4 * argLenV } from
    stackPush_eq_ok.mpr ⟨by dsimp only; omega, rfl⟩, exceptBind_ok]
  obtain ⟨s12, hpl, hsp, hbp, hpc, hpp, hbc, hsl, hlow, hslot⟩ :=
    pushList_spec 4
      ((List.range argLenV).map
        (fun i => readBytes t.stack (t.sp - 4 * (argLenV - i)) 4))
      { t with pc := t.pc + 8, pp := valueAddr + 8 + 2 + 1, stack := writeBytes (writeBytes t.stack (t.sp - 4 * argLenV) 8 t.bp) (t.sp - 4 * argLenV + 8) 8 (t.pc + 8), sp := t.sp - 4 * argLenV + 8 + 8, bp := t.sp - 4 * argLenV }
      (by dsimp only; rw [List.length_map, List.length_range]; omega)
      (by dsimp only; rw [writeBytes_length, writeBytes_length]; exact hlen)
  rw [hpl, exceptBind_ok]
  rw [show jumpStackTo (s12.sp + (varLenV - argLenV) * 4) s12
      = .ok { s12 with sp := s12.sp + (varLenV - argLenV) * 4 } from
    jumpStackTo_eq_ok.mpr ⟨by
      rw [hsp]
      dsimp only
      rw [List.length_map, List.length_range]
      omega, rfl⟩, exceptBind_ok]
  rw [show jumpPrgTo startAddr { s12 with sp := s12.sp + (varLenV - argLenV) * 4 }
      = .ok { s12 with sp := s12.sp + (varLenV - argLenV) * 4, pc := startAddr }
      from jumpPrgTo_eq_ok.mpr ⟨by simp only [hbc]; omega, rfl⟩]
  refine ⟨{ s12 with sp := s12.sp + (varLenV - argLenV) * 4, pc := startAddr },
    rfl, ?_, ?_, rfl, ?_, ?_, ?_, ?_, ?_, ?_, ?_⟩
  · dsimp only
    rw [hbp]
  · dsimp only
    rw [hsp]
    dsimp only
    rw [List.length_map, List.length_range]
    omega
  · dsimp only
    rw [hpp]
  · dsimp only
    rw [hbc]
  · dsimp only
    rw [hsl]
    dsimp only
    rw [writeBytes_length, writeBytes_length]
  · dsimp only
    rw [hlow (t.sp - 4 * argLenV) 8 (by dsimp only; omega)]
    dsimp only
    rw [readBytes_writeBytes_low (by omega),
      readBytes_writeBytes_self 8 t.stack (t.sp - 4 * argLenV) t.bp (by omega),
      pow256_8]
  · dsimp only
    rw [hlow (t.sp - 4 * argLenV + 8) 8 (by dsimp only; omega)]
    dsimp only
    rw [readBytes_writeBytes_self 8 _ (t.sp - 4 * argLenV + 8) (t.pc + 8)
      (by rw [writeBytes_length]; omega), pow256_8]
  · intro i hi
    dsimp only
    have hs12 := hslot i (by rw [List.length_map, List.length_range]; exact hi)
    dsimp only at hs12
    rw [show t.sp - 4 * argLenV + 16 + 4 * i = t.sp - 4 * argLenV + 8 + 8 + 4 * i
      from by omega, hs12, range_map_getD hi, pow256_4]
  · intro q n hq
    dsimp only
    rw [hlow q n (by dsimp only; omega)]
    dsimp only
    rw [readBytes_writeBytes_low (by omega), readBytes_writeBytes_low (by omega)]

theorem invokeOp_sav (t : VM) (poolI valueAddr startAddr varLenV argLenV : Nat)
    (hP : readBytes t.bytecode t.pc 8 = poolI)
    (h1 : t.pc + 8 ≤ t.bytecode.length)
    (h2 : poolOffset + poolI * 8 + 8 ≤ t.bytecode.length)
    (hVA : readBytes t.bytecode (poolOffset + poolI * 8) 8 = valueAddr)
    (h3 : valueAddr + 11 ≤ t.bytecode.length)
    (hSA : readBytes t.bytecode valueAddr 8 = startAddr)
    (hVL : readBytes t.bytecode (valueAddr + 8) 2 = varLenV)
    (hAL : readBytes t.bytecode (valueAddr + 10) 1 = argLenV)
    (hlt : varLenV < argLenV) :
    invokeOp t = .error .StackAccessViolation := by
  unfold invokeOp
  rw [show nextPrg 8 t = .ok (poolI, { t with pc := t.pc + 8 }) from
    nextPrg_eq_ok.mpr ⟨by omega, by rw [hP]⟩, exceptBind_ok]
  dsimp only
  rw [show jumpPoolTo (poolOffset + poolI * 8) { t with pc := t.pc + 8 }
      = .ok { t with pc := t.pc + 8, pp := poolOffset + poolI * 8 } from
    jumpPoolTo_eq_ok.mpr ⟨by dsimp only; omega, rfl⟩, exceptBind_ok]
  rw [show nextPool 8 { t with pc := t.pc + 8, pp := poolOffset + poolI * 8 }
      = .ok (valueAddr,
        { t with pc := t.pc + 8, pp := poolOffset + poolI * 8 + 8 }) from
    nextPool_eq_ok.mpr ⟨by dsimp only; omega, by
      show (valueAddr, _) = (readBytes t.bytecode (poolOffset + poolI * 8) 8, _)
      rw [hVA]⟩, exceptBind_ok]
  dsimp only
  rw [show jumpPoolTo valueAddr
        { t with pc := t.pc + 8, pp := poolOffset + poolI * 8 + 8 }
      = .ok { t with pc := t.pc + 8, pp := valueAddr } from
    jumpPoolTo_eq_ok.mpr ⟨by dsimp only; omega, rfl⟩, exceptBind_ok]
  rw [show nextPool 8 { t with pc := t.pc + 8, pp := valueAddr }
      = .ok (startAddr, { t with pc := t.pc + 8, pp := valueAddr + 8 }) from
    nextPool_eq_ok.mpr ⟨by dsimp only; omega, by
      show (startAddr, _) = (readBytes t.bytecode valueAddr 8, _)
      rw [hSA]⟩, exceptBind_ok]
  dsimp only
  rw [show nextPool 2 { t with pc := t.pc + 8, pp := valueAddr + 8 }
      = .ok (varLenV, { t with pc := t.pc + 8, pp := valueAddr + 8 + 2 }) from
    nextPool_eq_ok.mpr ⟨by dsimp only; omega, by
      show (varLenV, _) = (readBytes t.bytecode (valueAddr + 8) 2, _)
      rw [hVL]⟩, exceptBind_ok]
  dsimp only
  rw [show nextPool 1 { t with pc := t.pc + 8, pp := valueAddr + 8 + 2 }
      = .ok (argLenV, { t with pc := t.pc + 8, pp := valueAddr + 8 + 2 + 1 }) from
    nextPool_eq_ok.mpr ⟨by dsimp only; omega, by
      show (argLenV, _) = (readBytes t.bytecode (valueAddr + 8 + 2) 1, _)
      rw [show valueAddr + 8 + 2 = valueAddr + 10 from by omega, hAL]⟩,
    exceptBind_ok]
  dsimp only
  rw [if_pos (Or.inl hlt)]

/-- Claim C2, counterexample: on a concrete INVOKE (arg_len 1, operand stack
holding one argument above the entry frame, sp = 20), the interpreter sets the
new bp to 16 — the sp from before the saved-bp push, the offset of the
saved-bp slot itself — not to 24, the sp current after the saved bp has been
pushed, as the claim's step (8) requires. -/
theorem c2_counterexample : stepBp c2s = some 16 ∧ stepBp c2s ≠ some 24 := by
  exact ⟨by decide, by decide⟩

/-- Claim C2 (amended): for every INVOKE with resolved descriptor
{start, var_len, arg_len}: when var_len < arg_len the step terminates with
StackAccessViolation; otherwise, for every successful INVOKE, the top arg_len
w32 values are snapshotted and popped; the saved bp is pushed and the new bp is
set to the sp value from before that push (the byte offset of the saved-bp
slot itself); the pushed return address is the pc of the byte immediately
after INVOKE's 8-byte inline operand; the arguments are re-pushed in order
into slots 0..arg_len-1 (slot i at bp + 2 * ptrSize + 4 * i); sp is then
advanced past (var_len - arg_len) * 4 reserved bytes; and pc jumps to start. -/
theorem c2_invoke (s : VM) (poolI valueAddr startAddr varLenV argLenV : Nat)
    (hop : opcodeAt s = 0x03)
    (hP : readBytes s.bytecode (s.pc + 1) 8 = poolI)
    (h1 : s.pc + 1 + 8 ≤ s.bytecode.length)
    (h2 : poolOffset + poolI * 8 + 8 ≤ s.bytecode.length)
    (hVA : readBytes s.bytecode (poolOffset + poolI * 8) 8 = valueAddr)
    (h3 : valueAddr + 11 ≤ s.bytecode.length)
    (hSA : readBytes s.bytecode valueAddr 8 = startAddr)
    (hVL : readBytes s.bytecode (valueAddr + 8) 2 = varLenV)
    (hAL : readBytes s.bytecode (valueAddr + 10) 1 = argLenV) :
    (varLenV < argLenV → step s = .error .StackAccessViolation) ∧
    (argLenV ≤ varLenV → argLenV * 4 ≤ s.sp →
      (argLenV = 0 ∨ s.bp + 2 * ptrSize + 4 * argLenV ≤ s.sp) →
      s.sp - 4 * argLenV + 16 + 4 * varLenV ≤ maxStackSize →
      startAddr ≤ s.bytecode.length →
      s.stack.length = maxStackSize →
      ∃ t', step s = .ok t' ∧
        t'.bp = s.sp - 4 * argLenV ∧
        t'.sp = s.sp - 4 * argLenV + 16 + 4 * varLenV ∧
        t'.pc = startAddr ∧
        t'.bytecode = s.bytecode ∧
        t'.stack.length = s.stack.length ∧
        readBytes t'.stack t'.bp 8 = s.bp % 2 ^ 64 ∧
        readBytes t'.stack (t'.bp + 8) 8 = (s.pc + 9) % 2 ^ 64 ∧
        ∀ i, i < argLenV → readBytes t'.stack (t'.bp + 16 + 4 * i) 4
          = readBytes s.stack (s.sp - 4 * (argLenV - i)) 4 % 2 ^ 32) := by
  have hpc : s.pc < s.bytecode.length := opcodeAt_lt_length (by omega)
  refine ⟨fun hlt => ?_, fun h4 h5 h6 h7 h8 hlen => ?_⟩
  · rw [step_eq_exec hpc, hop]
    exact invokeOp_sav { s with pc := s.pc + 1 } poolI valueAddr startAddr
      varLenV argLenV hP h1 h2 hVA h3 hSA hVL hAL hlt
  · rw [step_eq_exec hpc, hop]
    obtain ⟨t', hok, hbp, hsp, hpcq, hpp, hbc, hslen, hsaved, hret, hslots, hlowI⟩ :=
      invokeOp_spec { s with pc := s.pc + 1 } poolI valueAddr startAddr
        varLenV argLenV hP h1 h2 hVA h3 hSA hVL hAL h4 h5 h6 h7 h8 hlen
    refine ⟨t', hok, hbp, hsp, hpcq, hbc, hslen, ?_, ?_, ?_⟩
    · rw [hbp]
      exact hsaved
    · rw [hbp]
      exact hret
    · intro i hi
      rw [hbp]
      exact hslots i hi

/-- Claim C2, witness: the amended INVOKE behavior on the concrete state c2s
(descriptor {start 100, var_len 2, arg_len 1}, one argument 7 on the stack). -/
theorem c2_invoke_witness :
    ∃ t', step c2s = .ok t' ∧ t'.bp = 16 ∧ t'.sp = 40 ∧ t'.pc = 100 ∧
      t'.bytecode = c2s.bytecode ∧ t'.stack.length = c2s.stack.length ∧
      readBytes t'.stack t'.bp 8 = 0 % 2 ^ 64 ∧
      readBytes t'.stack (t'.bp + 8) 8 = 156 % 2 ^ 64 ∧
      ∀ i, i < 1 → readBytes t'.stack (t'.bp + 16 + 4 * i) 4
        = readBytes c2s.stack (c2s.sp - 4 * (1 - i)) 4 % 2 ^ 32 := by
  exact (c2_invoke c2s 0 136 100 2 1 (by decide) (by decide) (by decide)
    (by decide) (by decide) (by decide) (by decide) (by decide) (by decide)).2
    (by decide) (by decide) (by decide) (by decide) (by decide) (by decide)

theorem callOp_ok_inv {s s' : VM} (h : callOp s = .ok s') :
    s' = { s with pc := s.pc + 1 } := by
  unfold callOp at h
  obtain ⟨⟨code, s1⟩, h1, h2⟩ := exceptBind_ok_inv h
  obtain ⟨_, h1b⟩ := nextPrg_eq_ok.mp h1
  obtain ⟨hc, hs⟩ := Prod.mk.injEq .. ▸ h1b
  subst hs
  dsimp only at h2
  cases code with
  | zero => exact (Except.ok.inj h2).symm
  | succ k => exact Except.noConfusion h2

theorem stackPushNextPrg_ok_inv {rW pW : Nat} {s s' : VM}
    (h : stackPushNextPrg rW pW s = .ok s') :
    ∃ v, s.sp + pW ≤ maxStackSize ∧
      s' = { s with pc := s.pc + rW, stack := writeBytes s.stack s.sp pW v, sp := s.sp + pW } := by
  unfold stackPushNextPrg at h
  obtain ⟨⟨v, s1⟩, h1, h2⟩ := exceptBind_ok_inv h
  obtain ⟨_, h1b⟩ := nextPrg_eq_ok.mp h1
  obtain ⟨hc, hs⟩ := Prod.mk.injEq .. ▸ h1b
  subst hs
  dsimp only at h2
  obtain ⟨hcap, hs'⟩ := stackPush_eq_ok.mp h2
  exact ⟨v, hcap, hs'⟩

theorem loadOp_ok_inv {w varI : Nat} {s s' : VM} (h : loadOp w varI s = .ok s') :
    ∃ v, s.sp + w ≤ maxStackSize ∧
      s' = { s with stack := writeBytes s.stack s.sp w v, sp := s.sp + w } := by
  unfold loadOp at h
  obtain ⟨d, h1, h2⟩ := exceptBind_ok_inv h
  obtain ⟨hcap, hs'⟩ := stackPush_eq_ok.mp h2
  exact ⟨_, hcap, hs'⟩

theorem storeOp_ok_inv {w varI v : Nat} {s s' : VM}
    (h : storeOp w varI v s = .ok s') :
    ∃ p, s.bp + 2 * ptrSize ≤ p ∧ p + w ≤ s.sp ∧
      s' = { s with stack := writeBytes s.stack p w v } := by
  unfold storeOp at h
  obtain ⟨d, h1, h2⟩ := exceptBind_ok_inv h
  obtain ⟨hg, hb, hd⟩ := varTableDiff_eq_ok.mp h1
  refine ⟨s.sp - d, by omega, by omega, (Except.ok.inj h2).symm⟩

theorem calcOp_ok_inv {w : Nat} {f : Nat → Nat → Nat × Bool} {cd : Bool}
    {s s' : VM} (h : calcOp w f cd s = .ok s') :
    ∃ v, s.bp + 2 * ptrSize + 2 * w ≤ s.sp ∧ s.sp - w - w + w ≤ maxStackSize ∧
      s' = { s with stack := writeBytes s.stack (s.sp - w - w) w v, sp := s.sp - w - w + w } := by
  unfold calcOp at h
  obtain ⟨⟨rv, s1⟩, h1, h2⟩ := exceptBind_ok_inv h
  obtain ⟨hg1, h1b⟩ := stackPop_eq_ok.mp h1
  obtain ⟨hc, hs⟩ := Prod.mk.injEq .. ▸ h1b
  subst hs
  dsimp only at h2
  obtain ⟨⟨lv, s2⟩, h3, h4⟩ := exceptBind_ok_inv h2
  obtain ⟨hg2, h3b⟩ := stackPop_eq_ok.mp h3
  obtain ⟨hc2, hs2⟩ := Prod.mk.injEq .. ▸ h3b
  subst hs2
  dsimp only at h4 hg2
  split at h4
  · exact absurd h4 (by simp)
  · rcases hf : f lv rv with ⟨v, o⟩
    rw [hf] at h4
    dsimp only at h4
    split at h4
    · exact absurd h4 (by simp)
    · obtain ⟨hcap, hs'⟩ := stackPush_eq_ok.mp h4
      exact ⟨v, by omega, hcap, hs'⟩

theorem cmpOp_ok_inv {w : Nat} {rel : Nat → Nat → Bool} {s s' : VM}
    (h : cmpOp w rel s = .ok s') :
    ∃ v, s.bp + 2 * ptrSize + 2 * w ≤ s.sp ∧ s.sp - w - w + 4 ≤ maxStackSize ∧
      s' = { s with stack := writeBytes s.stack (s.sp - w - w) 4 v, sp := s.sp - w - w + 4 } := by
  unfold cmpOp at h
  obtain ⟨⟨rv, s1⟩, h1, h2⟩ := exceptBind_ok_inv h
  obtain ⟨hg1, h1b⟩ := stackPop_eq_ok.mp h1
  obtain ⟨hc, hs⟩ := Prod.mk.injEq .. ▸ h1b
  subst hs
  dsimp only at h2
  obtain ⟨⟨lv, s2⟩, h3, h4⟩ := exceptBind_ok_inv h2
  obtain ⟨hg2, h3b⟩ := stackPop_eq_ok.mp h3
  obtain ⟨hc2, hs2⟩ := Prod.mk.injEq .. ▸ h3b
  subst hs2
  dsimp only at h4 hg2
  obtain ⟨hcap, hs'⟩ := stackPush_eq_ok.mp h4
  exact ⟨_, by omega, hcap, hs'⟩

theorem gotoOp_ok_inv {s s' : VM} (h : gotoOp s = .ok s') :
    ∃ j, s' = { s with pc := j } := by
  unfold gotoOp at h
  obtain ⟨⟨off, s1⟩, h1, h2⟩ := exceptBind_ok_inv h
  obtain ⟨_, h1b⟩ := nextPrg_eq_ok.mp h1
  obtain ⟨hc, hs⟩ := Prod.mk.injEq .. ▸ h1b
  subst hs
  dsimp only at h2
  split at h2
  · exact absurd h2 (by simp)
  · obtain ⟨_, hs'⟩ := jumpPrgTo_eq_ok.mp h2
    exact ⟨_, hs'⟩

theorem ifOp_ok_inv {s s' : VM} (h : ifOp s = .ok s') :
    ∃ j, s.bp + 2 * ptrSize + 4 ≤ s.sp ∧
      s' = { s with sp := s.sp - 4, pc := j } := by
  unfold ifOp at h
  obtain ⟨⟨cond, s1⟩, h1, h2⟩ := exceptBind_ok_inv h
  obtain ⟨hg, h1b⟩ := stackPop_eq_ok.mp h1
  obtain ⟨hc, hs⟩ := Prod.mk.injEq .. ▸ h1b
  subst hs
  dsimp only at h2
  split at h2
  · obtain ⟨j, hj⟩ := gotoOp_ok_inv h2
    exact ⟨j, hg, hj⟩
  · exact ⟨s.pc, hg, (Except.ok.inj h2).symm⟩

theorem popN_stack_inv {w : Nat} : ∀ {n : Nat} {s s' : VM},
    popN w n s = .ok s' →
    s'.stack = s.stack ∧ s'.bp = s.bp ∧ s'.bytecode = s.bytecode ∧
    s'.pc = s.pc ∧ s'.pp = s.pp ∧ s'.sp ≤ s.sp := by
  intro n
  induction n with
  | zero =>
    intro s s' h
    cases h
    exact ⟨rfl, rfl, rfl, rfl, rfl, Nat.le_refl _⟩
  | succ k ih =>
    intro s s' h
    obtain ⟨⟨v, s1⟩, h1, h2⟩ := exceptBind_ok_inv h
    obtain ⟨hg, h1b⟩ := stackPop_eq_ok.mp h1
    obtain ⟨hc, hs⟩ := Prod.mk.injEq .. ▸ h1b
    subst hs
    dsimp only at h2
    obtain ⟨ha, hb, hcq, hd, he, hf⟩ := ih h2
    exact ⟨ha, hb, hcq, hd, he, by dsimp only at hf; omega⟩

theorem rawPopN_stack_inv {w : Nat} : ∀ {n : Nat} {s s' : VM},
    rawPopN w n s = .ok s' →
    s'.stack = s.stack ∧ s'.bp = s.bp ∧ s'.bytecode = s.bytecode ∧
    s'.pc = s.pc ∧ s'.pp = s.pp ∧ s'.sp ≤ s.sp := by
  intro n
  induction n with
  | zero =>
    intro s s' h
    cases h
    exact ⟨rfl, rfl, rfl, rfl, rfl, Nat.le_refl _⟩
  | succ k ih =>
    intro s s' h
    obtain ⟨⟨v, s1⟩, h1, h2⟩ := exceptBind_ok_inv h
    obtain ⟨hg, h1b⟩ := rawStackPop_eq_ok.mp h1
    obtain ⟨hc, hs⟩ := Prod.mk.injEq .. ▸ h1b
    subst hs
    dsimp only at h2
    obtain ⟨ha, hb, hcq, hd, he, hf⟩ := ih h2
    exact ⟨ha, hb, hcq, hd, he, by dsimp only at hf; omega⟩

theorem retOp_ok_stack {s s' : VM} (h : retOp s = .ok s') :
    s'.stack = s.stack := by
  unfold retOp at h
  split at h
  · exact Except.noConfusion h
  · obtain ⟨s1, h1, h2⟩ := exceptBind_ok_inv h
    obtain ⟨hst1, _, _, _, _, _⟩ := rawPopN_stack_inv h1
    obtain ⟨⟨ra, s2⟩, h3, h4⟩ := exceptBind_ok_inv h2
    obtain ⟨_, h3b⟩ := rawStackPop_eq_ok.mp h3
    obtain ⟨hc, hs⟩ := Prod.mk.injEq .. ▸ h3b
    subst hs
    dsimp only at h4
    obtain ⟨s3, h5, h6⟩ := exceptBind_ok_inv h4
    obtain ⟨_, h5b⟩ := jumpPrgTo_eq_ok.mp h5
    subst h5b
    dsimp only at h6
    obtain ⟨⟨nb, s4⟩, h7, h8⟩ := exceptBind_ok_inv h6
    obtain ⟨_, h7b⟩ := rawStackPop_eq_ok.mp h7
    obtain ⟨hc2, hs2⟩ := Prod.mk.injEq .. ▸ h7b
    subst hs2
    dsimp only at h8
    rw [← Except.ok.inj h8]
    exact hst1

theorem invokeOp_ok_stack_length {s s' : VM} (h : invokeOp s = .ok s') :
    s'.stack.length = s.stack.length := by
  unfold invokeOp at h
  obtain ⟨⟨poolI, s1⟩, h1, h⟩ := exceptBind_ok_inv h
  obtain ⟨_, h1b⟩ := nextPrg_eq_ok.mp h1
  obtain ⟨_, hs1⟩ := Prod.mk.injEq .. ▸ h1b
  subst hs1
  dsimp only at h
  obtain ⟨s2, h2, h⟩ := exceptBind_ok_inv h
  obtain ⟨_, hs2⟩ := jumpPoolTo_eq_ok.mp h2
  subst hs2
  dsimp only at h
  obtain ⟨⟨va, s3⟩, h3, h⟩ := exceptBind_ok_inv h
  obtain ⟨_, h3b⟩ := nextPool_eq_ok.mp h3
  obtain ⟨_, hs3⟩ := Prod.mk.injEq .. ▸ h3b
  subst hs3
  dsimp only at h
  obtain ⟨s4, h4, h⟩ := exceptBind_ok_inv h
  obtain ⟨_, hs4⟩ := jumpPoolTo_eq_ok.mp h4
  subst hs4
  dsimp only at h
  obtain ⟨⟨sa, s5⟩, h5, h⟩ := exceptBind_ok_inv h
  obtain ⟨_, h5b⟩ := nextPool_eq_ok.mp h5
  obtain ⟨_, hs5⟩ := Prod.mk.injEq .. ▸ h5b
  subst hs5
  dsimp only at h
  obtain ⟨⟨vl, s6⟩, h6, h⟩ := exceptBind_ok_inv h
  obtain ⟨_, h6b⟩ := nextPool_eq_ok.mp h6
  obtain ⟨_, hs6⟩ := Prod.mk.injEq .. ▸ h6b
  subst hs6
  dsimp only at h
  obtain ⟨⟨al, s7⟩, h7, h⟩ := exceptBind_ok_inv h
  obtain ⟨_, h7b⟩ := nextPool_eq_ok.mp h7
  obtain ⟨_, hs7⟩ := Prod.mk.injEq .. ▸ h7b
  subst hs7
  dsimp only at h
  split at h
  · exact Except.noConfusion h
  · obtain ⟨s8, h8, h⟩ := exceptBind_ok_inv h
    obtain ⟨hst8, _, _, _, _, _⟩ := popN_stack_inv h8
    obtain ⟨s9, h9, h⟩ := exceptBind_ok_inv h
    obtain ⟨_, hs9⟩ := stackPush_eq_ok.mp h9
    subst hs9
    dsimp only at h
    obtain ⟨s11, h11, h⟩ := exceptBind_ok_inv h
    obtain ⟨_, hs11⟩ := stackPush_eq_ok.mp h11
    subst hs11
    dsimp only at h
    obtain ⟨s12, h12, h⟩ := exceptBind_ok_inv h
    have hl12 := pushList_length h12
    obtain ⟨s13, h13, h⟩ := exceptBind_ok_inv h
    obtain ⟨_, hs13⟩ := jumpStackTo_eq_ok.mp h13
    subst hs13
    obtain ⟨_, hs14⟩ := jumpPrgTo_eq_ok.mp h
    subst hs14
    dsimp only
    rw [hl12]
    dsimp only
    rw [writeBytes_length, writeBytes_length, hst8]

theorem retOp_spec (t : VM) (hg : t.bp + 2 * ptrSize ≤ t.sp)
    (hra : readBytes t.stack (t.bp + 8) 8 ≤ t.bytecode.length) :
    retOp t = .ok { t with sp := t.bp, pc := readBytes t.stack (t.bp + 8) 8, bp := readBytes t.stack t.bp 8 } := by
  unfold retOp
  rw [if_neg (by omega)]
  rw [show rawPopN 1 (t.sp - t.bp - 2 * ptrSize) t
      = .ok { t with sp := t.bp + 2 * ptrSize } from by
    rw [rawPopN_ok (by omega)]
    rw [show t.sp - 1 * (t.sp - t.bp - 2 * ptrSize) = t.bp + 2 * ptrSize
      from by omega], exceptBind_ok]
  rw [show rawStackPop 8 { t with sp := t.bp + 2 * ptrSize }
      = .ok (readBytes t.stack (t.bp + 8) 8, { t with sp := t.bp + 8 }) from
    rawStackPop_eq_ok.mpr ⟨by dsimp only; unfold ptrSize; omega, by
      show (readBytes t.stack (t.bp + 8) 8, ({ t with sp := t.bp + 8 } : VM)) = _
      rw [show t.bp + 2 * ptrSize - 8 = t.bp + 8 from by unfold ptrSize; omega]⟩,
    exceptBind_ok]
  dsimp only
  rw [show jumpPrgTo (readBytes t.stack (t.bp + 8) 8) { t with sp := t.bp + 8 }
      = .ok { t with sp := t.bp + 8, pc := readBytes t.stack (t.bp + 8) 8 } from
    jumpPrgTo_eq_ok.mpr ⟨by dsimp only; omega, rfl⟩, exceptBind_ok]
  rw [show rawStackPop 8 { t with sp := t.bp + 8, pc := readBytes t.stack (t.bp + 8) 8 }
      = .ok (readBytes t.stack t.bp 8,
        { t with sp := t.bp, pc := readBytes t.stack (t.bp + 8) 8 }) from
    rawStackPop_eq_ok.mpr ⟨by dsimp only; omega, by
      show (readBytes t.stack t.bp 8,
        ({ t with sp := t.bp, pc := readBytes t.stack (t.bp + 8) 8 } : VM)) = _
      rw [show t.bp + 8 - 8 = t.bp from by omega]⟩, exceptBind_ok]

theorem rawPopN_sp {w : Nat} : ∀ {n : Nat} {s s' : VM},
    rawPopN w n s = .ok s' → s'.sp = s.sp - w * n := by
  intro n
  induction n with
  | zero =>
    intro s s' h
    cases h
    simp
  | succ k ih =>
    intro s s' h
    obtain ⟨⟨v, s1⟩, h1, h2⟩ := exceptBind_ok_inv h
    obtain ⟨hg, h1b⟩ := rawStackPop_eq_ok.mp h1
    obtain ⟨hc, hs⟩ := Prod.mk.injEq .. ▸ h1b
    subst hs
    dsimp only at h2
    have hq := ih h2
    dsimp only at hq
    rw [hq, Nat.sub_sub, show w + w * k = w * (k + 1) from by ring]

theorem popN_sp_guard {w : Nat} : ∀ {n : Nat} {s s' : VM},
    popN w n s = .ok s' →
    s'.sp = s.sp - w * n ∧ (n = 0 ∨ s.bp + 2 * ptrSize + w * n ≤ s.sp) := by
  intro n
  induction n with
  | zero =>
    intro s s' h
    cases h
    exact ⟨by simp, Or.inl rfl⟩
  | succ k ih =>
    intro s s' h
    obtain ⟨⟨v, s1⟩, h1, h2⟩ := exceptBind_ok_inv h
    obtain ⟨hg, h1b⟩ := stackPop_eq_ok.mp h1
    obtain ⟨hc, hs⟩ := Prod.mk.injEq .. ▸ h1b
    subst hs
    dsimp only at h2
    obtain ⟨hsp, hgd⟩ := ih h2
    dsimp only at hsp hgd
    refine ⟨by rw [hsp, Nat.sub_sub, show w + w * k = w * (k + 1) from by ring],
      Or.inr ?_⟩
    rw [show w * (k + 1) = w * k + w from by ring]
    rcases hgd with hz | hb
    · subst hz
      simpa using hg
    · generalize w * k = X at hb ⊢
      omega

theorem pushList_inv {w : Nat} : ∀ {vs : List Nat} {s s' : VM},
    pushList w vs s = .ok s' →
    s'.sp = s.sp + w * vs.length ∧ s'.bp = s.bp ∧ s'.bytecode = s.bytecode ∧
    s'.pc = s.pc ∧ s'.pp = s.pp := by
  intro vs
  induction vs with
  | nil =>
    intro s s' h
    cases h
    exact ⟨by simp, rfl, rfl, rfl, rfl⟩
  | cons v rest ih =>
    intro s s' h
    obtain ⟨s1, h1, h2⟩ := exceptBind_ok_inv h
    obtain ⟨hcap, hs⟩ := stackPush_eq_ok.mp h1
    subst hs
    obtain ⟨ha, hb, hc, hd, he⟩ := ih h2
    dsimp only at ha hb hc hd he
    refine ⟨?_, hb, hc, hd, he⟩
    rw [ha, List.length_cons]
    ring

theorem retOp_ok_inv {t u : VM} (h : retOp t = .ok u) :
    t.bp + 2 * ptrSize ≤ t.sp ∧
    u.stack = t.stack ∧ u.sp = t.bp ∧
    u.pc = readBytes t.stack (t.bp + 8) 8 ∧
    u.bp = readBytes t.stack t.bp 8 ∧
    u.bytecode = t.bytecode ∧ u.pp = t.pp ∧
    readBytes t.stack (t.bp + 8) 8 ≤ t.bytecode.length := by
  unfold retOp at h
  split at h
  · exact Except.noConfusion h
  next hg =>
    have hps : ptrSize = 8 := rfl
    have hg' : t.bp + 2 * ptrSize ≤ t.sp := by omega
    obtain ⟨s1, h1, h⟩ := exceptBind_ok_inv h
    have hsp1 := rawPopN_sp h1
    obtain ⟨hst1, hbp1, hbc1, hpc1, hpp1, _⟩ := rawPopN_stack_inv h1
    have hsp1' : s1.sp = t.bp + 16 := by rw [hsp1]; omega
    obtain ⟨⟨ra, s2⟩, h3, h⟩ := exceptBind_ok_inv h
    obtain ⟨hb3, h3b⟩ := rawStackPop_eq_ok.mp h3
    obtain ⟨hra, hs2⟩ := Prod.mk.injEq .. ▸ h3b
    subst hs2
    dsimp only at h
    obtain ⟨s3, h5, h⟩ := exceptBind_ok_inv h
    obtain ⟨hb5, hs3⟩ := jumpPrgTo_eq_ok.mp h5
    subst hs3
    dsimp only at h
    obtain ⟨⟨nb, s4⟩, h7, h⟩ := exceptBind_ok_inv h
    obtain ⟨hb7, h7b⟩ := rawStackPop_eq_ok.mp h7
    obtain ⟨hnb, hs4⟩ := Prod.mk.injEq .. ▸ h7b
    subst hs4
    dsimp only at h hnb hb7
    have hu := Except.ok.inj h
    subst hu
    have hra' : ra = readBytes t.stack (t.bp + 8) 8 := by
      rw [hra, hst1, hsp1', show t.bp + 16 - 8 = t.bp + 8 from by omega]
    have hnb' : nb = readBytes t.stack t.bp 8 := by
      rw [hnb, hst1, hsp1', show t.bp + 16 - 8 - 8 = t.bp from by omega]
    dsimp only at hb5
    rw [hbc1] at hb5
    refine ⟨hg', hst1, ?_, hra', hnb', hbc1, hpp1, ?_⟩
    · dsimp only
      omega
    · rw [← hra']
      exact hb5

theorem invokeOp_ok_hyps {t u : VM} (h : invokeOp t = .ok u) :
    ∃ poolI valueAddr startAddr varLenV argLenV,
      readBytes t.bytecode t.pc 8 = poolI ∧
      t.pc + 8 ≤ t.bytecode.length ∧
      poolOffset + poolI * 8 + 8 ≤ t.bytecode.length ∧
      readBytes t.bytecode (poolOffset + poolI * 8) 8 = valueAddr ∧
      valueAddr + 11 ≤ t.bytecode.length ∧
      readBytes t.bytecode valueAddr 8 = startAddr ∧
      readBytes t.bytecode (valueAddr + 8) 2 = varLenV ∧
      readBytes t.bytecode (valueAddr + 10) 1 = argLenV ∧
      argLenV ≤ varLenV ∧ argLenV * 4 ≤ t.sp ∧
      (argLenV = 0 ∨ t.bp + 2 * ptrSize + 4 * argLenV ≤ t.sp) ∧
      t.sp - 4 * argLenV + 16 + 4 * varLenV ≤ maxStackSize ∧
      startAddr ≤ t.bytecode.length := by
  unfold invokeOp at h
  obtain ⟨⟨poolI, s1⟩, h1, h⟩ := exceptBind_ok_inv h
  obtain ⟨hb1, h1b⟩ := nextPrg_eq_ok.mp h1
  obtain ⟨hP, hs1⟩ := Prod.mk.injEq .. ▸ h1b
  subst hs1
  dsimp only at h
  obtain ⟨s2, h2, h⟩ := exceptBind_ok_inv h
  obtain ⟨hb2, hs2⟩ := jumpPoolTo_eq_ok.mp h2
  subst hs2
  dsimp only at h
  obtain ⟨⟨va, s3⟩, h3, h⟩ := exceptBind_ok_inv h
  obtain ⟨hb3, h3b⟩ := nextPool_eq_ok.mp h3
  obtain ⟨hVA, hs3⟩ := Prod.mk.injEq .. ▸ h3b
  subst hs3
  dsimp only at h
  obtain ⟨s4, h4, h⟩ := exceptBind_ok_inv h
  obtain ⟨hb4, hs4⟩ := jumpPoolTo_eq_ok.mp h4
  subst hs4
  dsimp only at h
  obtain ⟨⟨sa, s5⟩, h5, h⟩ := exceptBind_ok_inv h
  obtain ⟨hb5, h5b⟩ := nextPool_eq_ok.mp h5
  obtain ⟨hSA, hs5⟩ := Prod.mk.injEq .. ▸ h5b
  subst hs5
  dsimp only at h
  obtain ⟨⟨vl, s6⟩, h6, h⟩ := exceptBind_ok_inv h
  obtain ⟨hb6, h6b⟩ := nextPool_eq_ok.mp h6
  obtain ⟨hVL, hs6⟩ := Prod.mk.injEq .. ▸ h6b
  subst hs6
  dsimp only at h
  obtain ⟨⟨al, s7⟩, h7, h⟩ := exceptBind_ok_inv h
  obtain ⟨hb7, h7b⟩ := nextPool_eq_ok.mp h7
  obtain ⟨hAL, hs7⟩ := Prod.mk.injEq .. ▸ h7b
  subst hs7
  dsimp only at h
  split at h
  next hcond => exact Except.noConfusion h
  next hcond =>
    obtain ⟨s8, h8, h⟩ := exceptBind_ok_inv h
    have hpop := popN_sp_guard h8
    obtain ⟨hst8, hbp8, hbc8, hpc8, hpp8, _⟩ := popN_stack_inv h8
    obtain ⟨s9, h9, h⟩ := exceptBind_ok_inv h
    obtain ⟨hb9, hs9⟩ := stackPush_eq_ok.mp h9
    subst hs9
    dsimp only at h
    obtain ⟨s11, h11, h⟩ := exceptBind_ok_inv h
    obtain ⟨hb11, hs11⟩ := stackPush_eq_ok.mp h11
    subst hs11
    dsimp only at h
    obtain ⟨s12, h12, h⟩ := exceptBind_ok_inv h
    obtain ⟨hsp12, hbp12, hbc12, hpc12, hpp12⟩ := pushList_inv h12
    simp only [List.length_map, List.length_range] at hsp12
    dsimp only at hsp12 hbc12
    obtain ⟨s13, h13, h⟩ := exceptBind_ok_inv h
    obtain ⟨hb13, hs13⟩ := jumpStackTo_eq_ok.mp h13
    subst hs13
    obtain ⟨hb14, _⟩ := jumpPrgTo_eq_ok.mp h
    dsimp only at hb2 hb3 hVA hb4 hb5 hSA hb6 hVL hb7 hAL hcond hpop hbc8 hb14
    rw [hbc12, hbc8] at hb14
    refine ⟨poolI, va, sa, vl, al, hP.symm, hb1, hb3, hVA.symm, by omega,
      hSA.symm, hVL.symm, ?_, by omega, by omega, hpop.2, ?_, hb14⟩
    · rw [show va + 10 = va + 8 + 2 from by omega]
      exact hAL.symm
    · have hsp8 := hpop.1
      omega

theorem exec_stack_length {op : Opcode} {s s' : VM}
    (h : execOpcode op s = .ok s') : s'.stack.length = s.stack.length := by
  cases op with
  | Unknown => exact Except.noConfusion h
  | Nop => rw [← Except.ok.inj h]
  | Exit => exact Except.noConfusion h
  | Call => rw [callOp_ok_inv h]
  | Invoke => exact invokeOp_ok_stack_length h
  | Ret => rw [retOp_ok_stack h]
  | BPush =>
    obtain ⟨v, _, hs⟩ := stackPushNextPrg_ok_inv h
    rw [hs]
    exact writeBytes_length ..
  | SPush =>
    obtain ⟨v, _, hs⟩ := stackPushNextPrg_ok_inv h
    rw [hs]
    exact writeBytes_length ..
  | IPush =>
    obtain ⟨v, _, hs⟩ := stackPushNextPrg_ok_inv h
    rw [hs]
    exact writeBytes_length ..
  | LPush =>
    obtain ⟨v, _, hs⟩ := stackPushNextPrg_ok_inv h
    rw [hs]
    exact writeBytes_length ..
  | Dup =>
    obtain ⟨v, h1, h2⟩ := exceptBind_ok_inv h
    obtain ⟨_, hs⟩ := stackPush_eq_ok.mp h2
    rw [hs]
    exact writeBytes_length ..
  | Dup2 =>
    obtain ⟨v, h1, h2⟩ := exceptBind_ok_inv h
    obtain ⟨_, hs⟩ := stackPush_eq_ok.mp h2
    rw [hs]
    exact writeBytes_length ..
  | Pop =>
    obtain ⟨⟨v, s1⟩, h1, h2⟩ := exceptBind_ok_inv h
    obtain ⟨_, h1b⟩ := stackPop_eq_ok.mp h1
    obtain ⟨_, hs⟩ := Prod.mk.injEq .. ▸ h1b
    subst hs
    dsimp only at h2
    rw [← Except.ok.inj h2]
  | Pop2 =>
    obtain ⟨⟨v, s1⟩, h1, h2⟩ := exceptBind_ok_inv h
    obtain ⟨_, h1b⟩ := stackPop_eq_ok.mp h1
    obtain ⟨_, hs⟩ := Prod.mk.injEq .. ▸ h1b
    subst hs
    dsimp only at h2
    rw [← Except.ok.inj h2]
  | Load =>
    obtain ⟨⟨vi, s1⟩, h1, h2⟩ := exceptBind_ok_inv h
    obtain ⟨_, h1b⟩ := nextPrg_eq_ok.mp h1
    obtain ⟨_, hs⟩ := Prod.mk.injEq .. ▸ h1b
    subst hs
    dsimp only at h2
    obtain ⟨v, _, hs2⟩ := loadOp_ok_inv h2
    rw [hs2]
    exact writeBytes_length ..
  | Load2 =>
    obtain ⟨⟨vi, s1⟩, h1, h2⟩ := exceptBind_ok_inv h
    obtain ⟨_, h1b⟩ := nextPrg_eq_ok.mp h1
    obtain ⟨_, hs⟩ := Prod.mk.injEq .. ▸ h1b
    subst hs
    dsimp only at h2
    obtain ⟨v, _, hs2⟩ := loadOp_ok_inv h2
    rw [hs2]
    exact writeBytes_length ..
  | Store =>
    obtain ⟨⟨vi, s1⟩, h1, h2⟩ := exceptBind_ok_inv h
    obtain ⟨_, h1b⟩ := nextPrg_eq_ok.mp h1
    obtain ⟨_, hs⟩ := Prod.mk.injEq .. ▸ h1b
    subst hs
    dsimp only at h2
    obtain ⟨⟨v, s2⟩, h3, h4⟩ := exceptBind_ok_inv h2
    obtain ⟨_, h3b⟩ := stackPop_eq_ok.mp h3
    obtain ⟨_, hs2⟩ := Prod.mk.injEq .. ▸ h3b
    subst hs2
    dsimp only at h4
    obtain ⟨p, _, _, hs3⟩ := storeOp_ok_inv h4
    rw [hs3]
    exact writeBytes_length ..
  | Store2 =>
    obtain ⟨⟨vi, s1⟩, h1, h2⟩ := exceptBind_ok_inv h
    obtain ⟨_, h1b⟩ := nextPrg_eq_ok.mp h1
    obtain ⟨_, hs⟩ := Prod.mk.injEq .. ▸ h1b
    subst hs
    dsimp only at h2
    obtain ⟨⟨v, s2⟩, h3, h4⟩ := exceptBind_ok_inv h2
    obtain ⟨_, h3b⟩ := stackPop_eq_ok.mp h3
    obtain ⟨_, hs2⟩ := Prod.mk.injEq .. ▸ h3b
    subst hs2
    dsimp only at h4
    obtain ⟨p, _, _, hs3⟩ := storeOp_ok_inv h4
    rw [hs3]
    exact writeBytes_length ..
  | IAdd =>
    have hq : calcOp 4 (overflowingAdd (2 ^ 32)) false s = .ok s' := h
    obtain ⟨v, _, _, hs⟩ := calcOp_ok_inv hq
    rw [hs]
    exact writeBytes_length ..
  | LAdd =>
    have hq : calcOp 8 (overflowingAdd (2 ^ 64)) false s = .ok s' := h
    obtain ⟨v, _, _, hs⟩ := calcOp_ok_inv hq
    rw [hs]
    exact writeBytes_length ..
  | ISub =>
    have hq : calcOp 4 (overflowingSub (2 ^ 32)) false s = .ok s' := h
    obtain ⟨v, _, _, hs⟩ := calcOp_ok_inv hq
    rw [hs]
    exact writeBytes_length ..
  | LSub =>
    have hq : calcOp 8 (overflowingSub (2 ^ 64)) false s = .ok s' := h
    obtain ⟨v, _, _, hs⟩ := calcOp_ok_inv hq
    rw [hs]
    exact writeBytes_length ..
  | IMul =>
    have hq : calcOp 4 (overflowingMul (2 ^ 32)) false s = .ok s' := h
    obtain ⟨v, _, _, hs⟩ := calcOp_ok_inv hq
    rw [hs]
    exact writeBytes_length ..
  | LMul =>
    have hq : calcOp 8 (overflowingMul (2 ^ 64)) false s = .ok s' := h
    obtain ⟨v, _, _, hs⟩ := calcOp_ok_inv hq
    rw [hs]
    exact writeBytes_length ..
  | IDiv =>
    have hq : calcOp 4 (overflowingDiv (2 ^ 32)) true s = .ok s' := h
    obtain ⟨v, _, _, hs⟩ := calcOp_ok_inv hq
    rw [hs]
    exact writeBytes_length ..
  | LDiv =>
    have hq : calcOp 8 (overflowingDiv (2 ^ 64)) true s = .ok s' := h
    obtain ⟨v, _, _, hs⟩ := calcOp_ok_inv hq
    rw [hs]
    exact writeBytes_length ..
  | IEq =>
    have hq : cmpOp 4 (fun a b => a == b) s = .ok s' := h
    obtain ⟨v, _, _, hs⟩ := cmpOp_ok_inv hq
    rw [hs]
    exact writeBytes_length ..
  | LEq =>
    have hq : cmpOp 8 (fun a b => a == b) s = .ok s' := h
    obtain ⟨v, _, _, hs⟩ := cmpOp_ok_inv hq
    rw [hs]
    exact writeBytes_length ..
  | IOrd =>
    have hq : cmpOp 4 (fun a b => a < b) s = .ok s' := h
    obtain ⟨v, _, _, hs⟩ := cmpOp_ok_inv hq
    rw [hs]
    exact writeBytes_length ..
  | LOrd =>
    have hq : cmpOp 8 (fun a b => a < b) s = .ok s' := h
    obtain ⟨v, _, _, hs⟩ := cmpOp_ok_inv hq
    rw [hs]
    exact writeBytes_length ..
  | IEqOrd =>
    have hq : cmpOp 4 (fun a b => a ≤ b) s = .ok s' := h
    obtain ⟨v, _, _, hs⟩ := cmpOp_ok_inv hq
    rw [hs]
    exact writeBytes_length ..
  | LEqOrd =>
    have hq : cmpOp 8 (fun a b => a ≤ b) s = .ok s' := h
    obtain ⟨v, _, _, hs⟩ := cmpOp_ok_inv hq
    rw [hs]
    exact writeBytes_length ..
  | Goto =>
    obtain ⟨j, hs⟩ := gotoOp_ok_inv h
    rw [hs]
  | If =>
    obtain ⟨j, _, hs⟩ := ifOp_ok_inv h
    rw [hs]

theorem step_stack_length {s s' : VM} (h : step s = .ok s') :
    s'.stack.length = s.stack.length := by
  unfold step at h
  obtain ⟨⟨b, s1⟩, h1, h2⟩ := exceptBind_ok_inv h
  obtain ⟨_, h1b⟩ := nextPrg_eq_ok.mp h1
  obtain ⟨_, hs⟩ := Prod.mk.injEq .. ▸ h1b
  subst hs
  dsimp only at h2
  have hq := exec_stack_length h2
  exact hq

/-- Claim C8, counterexample: an INVOKE whose locals reservation would move sp
to 1232, past the 1024-byte capacity, terminates with StackAccessViolation
(raised by the stack-cursor jump), not with StackOverflow as the claim says. -/
theorem c8_counterexample :
    stepErr c8s = some .StackAccessViolation ∧
    stepErr c8s ≠ some .StackOverflow := by
  exact ⟨by decide, by decide⟩

/-- Claim C8 (amended): the operand-stack capacity is the constant 1024 bytes
and the arena never grows (every successful step preserves its byte length); a
push with sp + sizeof(W) > capacity terminates with StackOverflow; but the
INVOKE locals reservation moves sp with the stack-cursor jump, which fails
with StackAccessViolation (not StackOverflow) when the target exceeds the
capacity. -/
theorem c8_capacity (s : VM) (w v i : Nat) :
    maxStackSize = 1024 ∧
    (maxStackSize < s.sp + w → stackPush w v s = .error .StackOverflow) ∧
    (maxStackSize < i → jumpStackTo i s = .error .StackAccessViolation) ∧
    (∀ s', step s = .ok s' → s'.stack.length = s.stack.length) := by
  refine ⟨rfl, fun h => ?_, fun h => ?_, fun s' h => step_stack_length h⟩
  · unfold stackPush
    rw [if_pos (by omega)]
  · unfold jumpStackTo
    rw [if_pos (by omega)]

/-- Claim C8, witness: a push at sp = 1022 overflows, the concrete INVOKE
reservation target 1232 is refused by the stack cursor, and a successful step
keeps the arena length. -/
theorem c8_capacity_witness :
    stackPush 4 7 { c7s with sp := 1022 } = .error .StackOverflow ∧
    jumpStackTo 1232 c8s = .error .StackAccessViolation ∧
    ({ c1s with sp := 16, pc := 1 } : VM).stack.length = c1s.stack.length := by
  refine ⟨(c8_capacity { c7s with sp := 1022 } 4 7 1232).2.1 (by decide),
    (c8_capacity c8s 4 7 1232).2.2.1 (by decide),
    (c8_capacity c1s 4 7 1232).2.2.2 _ (by rfl)⟩

theorem pres_of_write {s s' : VM} {p w v : Nat}
    (hst : s'.stack = writeBytes s.stack p w v)
    (hbp : s'.bp = s.bp) (hbc : s'.bytecode = s.bytecode)
    (hp : s.bp + 2 * ptrSize ≤ p)
    (hsp : s.bp + 2 * ptrSize ≤ s'.sp) (hcap : s'.sp ≤ maxStackSize)
    (hinv : VMInv s) : VMInv s' ∧ FramePres s s' := by
  obtain ⟨hi1, hi2, hi3⟩ := hinv
  refine ⟨⟨by omega, hcap, by rw [hst, writeBytes_length]; exact hi3⟩,
    hbp, hbc, by rw [hst, writeBytes_length], fun q n hq => ?_⟩
  rw [hst]
  exact readBytes_writeBytes_low (by omega)

theorem pres_of_nowrite {s s' : VM}
    (hst : s'.stack = s.stack) (hbp : s'.bp = s.bp) (hbc : s'.bytecode = s.bytecode)
    (hsp : s.bp + 2 * ptrSize ≤ s'.sp) (hcap : s'.sp ≤ maxStackSize)
    (hinv : VMInv s) : VMInv s' ∧ FramePres s s' := by
  obtain ⟨hi1, hi2, hi3⟩ := hinv
  exact ⟨⟨by omega, hcap, by rw [hst]; exact hi3⟩,
    hbp, hbc, by rw [hst], fun q n hq => by rw [hst]⟩

theorem exec_preserves {op : Opcode} {s s' : VM}
    (h : execOpcode op s = .ok s') (hni : op ≠ .Invoke) (hnr : op ≠ .Ret)
    (hinv : VMInv s) : VMInv s' ∧ FramePres s s' := by
  obtain ⟨hi1, hi2, hi3⟩ := hinv
  cases op with
  | Unknown => exact Except.noConfusion h
  | Exit => exact Except.noConfusion h
  | Invoke => exact absurd rfl hni
  | Ret => exact absurd rfl hnr
  | Nop =>
    rw [← Except.ok.inj h]
    exact pres_of_nowrite rfl rfl rfl hi1 hi2 ⟨hi1, hi2, hi3⟩
  | Call =>
    rw [callOp_ok_inv h]
    exact pres_of_nowrite rfl rfl rfl hi1 hi2 ⟨hi1, hi2, hi3⟩
  | BPush =>
    obtain ⟨v, hcap, hs⟩ := stackPushNextPrg_ok_inv h
    exact pres_of_write (by rw [hs]) (by rw [hs]) (by rw [hs]) (by omega)
      (by rw [hs]; dsimp only; omega) (by rw [hs]; dsimp only; omega) ⟨hi1, hi2, hi3⟩
  | SPush =>
    obtain ⟨v, hcap, hs⟩ := stackPushNextPrg_ok_inv h
    exact pres_of_write (by rw [hs]) (by rw [hs]) (by rw [hs]) (by omega)
      (by rw [hs]; dsimp only; omega) (by rw [hs]; dsimp only; omega) ⟨hi1, hi2, hi3⟩
  | IPush =>
    obtain ⟨v, hcap, hs⟩ := stackPushNextPrg_ok_inv h
    exact pres_of_write (by rw [hs]) (by rw [hs]) (by rw [hs]) (by omega)
      (by rw [hs]; dsimp only; omega) (by rw [hs]; dsimp only; omega) ⟨hi1, hi2, hi3⟩
  | LPush =>
    obtain ⟨v, hcap, hs⟩ := stackPushNextPrg_ok_inv h
    exact pres_of_write (by rw [hs]) (by rw [hs]) (by rw [hs]) (by omega)
      (by rw [hs]; dsimp only; omega) (by rw [hs]; dsimp only; omega) ⟨hi1, hi2, hi3⟩
  | Dup =>
    obtain ⟨v, h1, h2⟩ := exceptBind_ok_inv h
    obtain ⟨hcap, hs⟩ := stackPush_eq_ok.mp h2
    exact pres_of_write (by rw [hs]) (by rw [hs]) (by rw [hs]) (by omega)
      (by rw [hs]; dsimp only; omega) (by rw [hs]; dsimp only; omega) ⟨hi1, hi2, hi3⟩
  | Dup2 =>
    obtain ⟨v, h1, h2⟩ := exceptBind_ok_inv h
    obtain ⟨hcap, hs⟩ := stackPush_eq_ok.mp h2
    exact pres_of_write (by rw [hs]) (by rw [hs]) (by rw [hs]) (by omega)
      (by rw [hs]; dsimp only; omega) (by rw [hs]; dsimp only; omega) ⟨hi1, hi2, hi3⟩
  | Pop =>
    obtain ⟨⟨v, s1⟩, h1, h2⟩ := exceptBind_ok_inv h
    obtain ⟨hg, h1b⟩ := stackPop_eq_ok.mp h1
    obtain ⟨_, hs⟩ := Prod.mk.injEq .. ▸ h1b
    subst hs
    dsimp only at h2
    rw [← Except.ok.inj h2]
    exact pres_of_nowrite rfl rfl rfl (by dsimp only; omega) (by dsimp only; omega)
      ⟨hi1, hi2, hi3⟩
  | Pop2 =>
    obtain ⟨⟨v, s1⟩, h1, h2⟩ := exceptBind_ok_inv h
    obtain ⟨hg, h1b⟩ := stackPop_eq_ok.mp h1
    obtain ⟨_, hs⟩ := Prod.mk.injEq .. ▸ h1b
    subst hs
    dsimp only at h2
    rw [← Except.ok.inj h2]
    exact pres_of_nowrite rfl rfl rfl (by dsimp only; omega) (by dsimp only; omega)
      ⟨hi1, hi2, hi3⟩
  | Load =>
    obtain ⟨⟨vi, s1⟩, h1, h2⟩ := exceptBind_ok_inv h
    obtain ⟨_, h1b⟩ := nextPrg_eq_ok.mp h1
    obtain ⟨_, hs⟩ := Prod.mk.injEq .. ▸ h1b
    subst hs
    dsimp only at h2
    obtain ⟨v, hcap, hs2⟩ := loadOp_ok_inv h2
    dsimp only at hcap
    exact pres_of_write (by rw [hs2]) (by rw [hs2]) (by rw [hs2])
      (by dsimp only; omega)
      (by rw [hs2]; dsimp only; omega) (by rw [hs2]; dsimp only; omega) ⟨hi1, hi2, hi3⟩
  | Load2 =>
    obtain ⟨⟨vi, s1⟩, h1, h2⟩ := exceptBind_ok_inv h
    obtain ⟨_, h1b⟩ := nextPrg_eq_ok.mp h1
    obtain ⟨_, hs⟩ := Prod.mk.injEq .. ▸ h1b
    subst hs
    dsimp only at h2
    obtain ⟨v, hcap, hs2⟩ := loadOp_ok_inv h2
    dsimp only at hcap
    exact pres_of_write (by rw [hs2]) (by rw [hs2]) (by rw [hs2])
      (by dsimp only; omega)
      (by rw [hs2]; dsimp only; omega) (by rw [hs2]; dsimp only; omega) ⟨hi1, hi2, hi3⟩
  | Store =>
    obtain ⟨⟨vi, s1⟩, h1, h2⟩ := exceptBind_ok_inv h
    obtain ⟨_, h1b⟩ := nextPrg_eq_ok.mp h1
    obtain ⟨_, hs⟩ := Prod.mk.injEq .. ▸ h1b
    subst hs
    dsimp only at h2
    obtain ⟨⟨v, s2⟩, h3, h4⟩ := exceptBind_ok_inv h2
    obtain ⟨hg, h3b⟩ := stackPop_eq_ok.mp h3
    obtain ⟨_, hs2⟩ := Prod.mk.injEq .. ▸ h3b
    subst hs2
    dsimp only at h4 hg
    obtain ⟨p, hp1, hp2, hs3⟩ := storeOp_ok_inv h4
    dsimp only at hp1 hp2
    exact pres_of_write (by rw [hs3]) (by rw [hs3]) (by rw [hs3]) (by omega)
      (by rw [hs3]; dsimp only; omega) (by rw [hs3]; dsimp only; omega) ⟨hi1, hi2, hi3⟩
  | Store2 =>
    obtain ⟨⟨vi, s1⟩, h1, h2⟩ := exceptBind_ok_inv h
    obtain ⟨_, h1b⟩ := nextPrg_eq_ok.mp h1
    obtain ⟨_, hs⟩ := Prod.mk.injEq .. ▸ h1b
    subst hs
    dsimp only at h2
    obtain ⟨⟨v, s2⟩, h3, h4⟩ := exceptBind_ok_inv h2
    obtain ⟨hg, h3b⟩ := stackPop_eq_ok.mp h3
    obtain ⟨_, hs2⟩ := Prod.mk.injEq .. ▸ h3b
    subst hs2
    dsimp only at h4 hg
    obtain ⟨p, hp1, hp2, hs3⟩ := storeOp_ok_inv h4
    dsimp only at hp1 hp2
    exact pres_of_write (by rw [hs3]) (by rw [hs3]) (by rw [hs3]) (by omega)
      (by rw [hs3]; dsimp only; omega) (by rw [hs3]; dsimp only; omega) ⟨hi1, hi2, hi3⟩
  | Goto =>
    obtain ⟨j, hs⟩ := gotoOp_ok_inv h
    rw [hs]
    exact pres_of_nowrite rfl rfl rfl hi1 hi2 ⟨hi1, hi2, hi3⟩
  | If =>
    obtain ⟨j, hg, hs⟩ := ifOp_ok_inv h
    rw [hs]
    exact pres_of_nowrite rfl rfl rfl (by dsimp only; omega) (by dsimp only; omega)
      ⟨hi1, hi2, hi3⟩
  | IAdd =>
    have hq : calcOp 4 (overflowingAdd (2 ^ 32)) false s = .ok s' := h
    obtain ⟨v, hg, hcap, hs⟩ := calcOp_ok_inv hq
    exact pres_of_write (by rw [hs]) (by rw [hs]) (by rw [hs]) (by omega)
      (by rw [hs]; dsimp only; omega) (by rw [hs]; dsimp only; omega) ⟨hi1, hi2, hi3⟩
  | LAdd =>
    have hq : calcOp 8 (overflowingAdd (2 ^ 64)) false s = .ok s' := h
    obtain ⟨v, hg, hcap, hs⟩ := calcOp_ok_inv hq
    exact pres_of_write (by rw [hs]) (by rw [hs]) (by rw [hs]) (by omega)
      (by rw [hs]; dsimp only; omega) (by rw [hs]; dsimp only; omega) ⟨hi1, hi2, hi3⟩
  | ISub =>
    have hq : calcOp 4 (overflowingSub (2 ^ 32)) false s = .ok s' := h
    obtain ⟨v, hg, hcap, hs⟩ := calcOp_ok_inv hq
    exact pres_of_write (by rw [hs]) (by rw [hs]) (by rw [hs]) (by omega)
      (by rw [hs]; dsimp only; omega) (by rw [hs]; dsimp only; omega) ⟨hi1, hi2, hi3⟩
  | LSub =>
    have hq : calcOp 8 (overflowingSub (2 ^ 64)) false s = .ok s' := h
    obtain ⟨v, hg, hcap, hs⟩ := calcOp_ok_inv hq
    exact pres_of_write (by rw [hs]) (by rw [hs]) (by rw [hs]) (by omega)
      (by rw [hs]; dsimp only; omega) (by rw [hs]; dsimp only; omega) ⟨hi1, hi2, hi3⟩
  | IMul =>
    have hq : calcOp 4 (overflowingMul (2 ^ 32)) false s = .ok s' := h
    obtain ⟨v, hg, hcap, hs⟩ := calcOp_ok_inv hq
    exact pres_of_write (by rw [hs]) (by rw [hs]) (by rw [hs]) (by omega)
      (by rw [hs]; dsimp only; omega) (by rw [hs]; dsimp only; omega) ⟨hi1, hi2, hi3⟩
  | LMul =>
    have hq : calcOp 8 (overflowingMul (2 ^ 64)) false s = .ok s' := h
    obtain ⟨v, hg, hcap, hs⟩ := calcOp_ok_inv hq
    exact pres_of_write (by rw [hs]) (by rw [hs]) (by rw [hs]) (by omega)
      (by rw [hs]; dsimp only; omega) (by rw [hs]; dsimp only; omega) ⟨hi1, hi2, hi3⟩
  | IDiv =>
    have hq : calcOp 4 (overflowingDiv (2 ^ 32)) true s = .ok s' := h
    obtain ⟨v, hg, hcap, hs⟩ := calcOp_ok_inv hq
    exact pres_of_write (by rw [hs]) (by rw [hs]) (by rw [hs]) (by omega)
      (by rw [hs]; dsimp only; omega) (by rw [hs]; dsimp only; omega) ⟨hi1, hi2, hi3⟩
  | LDiv =>
    have hq : calcOp 8 (overflowingDiv (2 ^ 64)) true s = .ok s' := h
    obtain ⟨v, hg, hcap, hs⟩ := calcOp_ok_inv hq
    exact pres_of_write (by rw [hs]) (by rw [hs]) (by rw [hs]) (by omega)
      (by rw [hs]; dsimp only; omega) (by rw [hs]; dsimp only; omega) ⟨hi1, hi2, hi3⟩
  | IEq =>
    have hq : cmpOp 4 (fun a b => a == b) s = .ok s' := h
    obtain ⟨v, hg, hcap, hs⟩ := cmpOp_ok_inv hq
    exact pres_of_write (by rw [hs]) (by rw [hs]) (by rw [hs]) (by omega)
      (by rw [hs]; dsimp only; omega) (by rw [hs]; dsimp only; omega) ⟨hi1, hi2, hi3⟩
  | LEq =>
    have hq : cmpOp 8 (fun a b => a == b) s = .ok s' := h
    obtain ⟨v, hg, hcap, hs⟩ := cmpOp_ok_inv hq
    exact pres_of_write (by rw [hs]) (by rw [hs]) (by rw [hs]) (by omega)
      (by rw [hs]; dsimp only; omega) (by rw [hs]; dsimp only; omega) ⟨hi1, hi2, hi3⟩
  | IOrd =>
    have hq : cmpOp 4 (fun a b => a < b) s = .ok s' := h
    obtain ⟨v, hg, hcap, hs⟩ := cmpOp_ok_inv hq
    exact pres_of_write (by rw [hs]) (by rw [hs]) (by rw [hs]) (by omega)
      (by rw [hs]; dsimp only; omega) (by rw [hs]; dsimp only; omega) ⟨hi1, hi2, hi3⟩
  | LOrd =>
    have hq : cmpOp 8 (fun a b => a < b) s = .ok s' := h
    obtain ⟨v, hg, hcap, hs⟩ := cmpOp_ok_inv hq
    exact pres_of_write (by rw [hs]) (by rw [hs]) (by rw [hs]) (by omega)
      (by rw [hs]; dsimp only; omega) (by rw [hs]; dsimp only; omega) ⟨hi1, hi2, hi3⟩
  | IEqOrd =>
    have hq : cmpOp 4 (fun a b => a ≤ b) s = .ok s' := h
    obtain ⟨v, hg, hcap, hs⟩ := cmpOp_ok_inv hq
    exact pres_of_write (by rw [hs]) (by rw [hs]) (by rw [hs]) (by omega)
      (by rw [hs]; dsimp only; omega) (by rw [hs]; dsimp only; omega) ⟨hi1, hi2, hi3⟩
  | LEqOrd =>
    have hq : cmpOp 8 (fun a b => a ≤ b) s = .ok s' := h
    obtain ⟨v, hg, hcap, hs⟩ := cmpOp_ok_inv hq
    exact pres_of_write (by rw [hs]) (by rw [hs]) (by rw [hs]) (by omega)
      (by rw [hs]; dsimp only; omega) (by rw [hs]; dsimp only; omega) ⟨hi1, hi2, hi3⟩

theorem fromU8_invoke {b : Nat} (h : Opcode.fromU8 b = .Invoke) : b = 3 := by
  unfold Opcode.fromU8 at h
  split at h <;> first | rfl | exact Opcode.noConfusion h

theorem fromU8_ret {b : Nat} (h : Opcode.fromU8 b = .Ret) : b = 4 := by
  unfold Opcode.fromU8 at h
  split at h <;> first | rfl | exact Opcode.noConfusion h

theorem step_preserves {s s' : VM} (h : step s = .ok s')
    (h3 : opcodeAt s ≠ 3) (h4 : opcodeAt s ≠ 4) (hinv : VMInv s) :
    VMInv s' ∧ FramePres s s' := by
  unfold step at h
  obtain ⟨⟨b, s1⟩, h1, h2⟩ := exceptBind_ok_inv h
  obtain ⟨_, h1b⟩ := nextPrg_eq_ok.mp h1
  obtain ⟨hb, hs⟩ := Prod.mk.injEq .. ▸ h1b
  subst hs
  dsimp only at h2
  have hni : Opcode.fromU8 b ≠ .Invoke := fun hc => h3 (hb.symm.trans (fromU8_invoke hc))
  have hnr : Opcode.fromU8 b ≠ .Ret := fun hc => h4 (hb.symm.trans (fromU8_ret hc))
  have hq := @exec_preserves _ { s with pc := s.pc + 1 } _ h2 hni hnr hinv
  exact hq

theorem invokeOp_ok_full {t u : VM} (h : invokeOp t = .ok u)
    (hlen : t.stack.length = maxStackSize) :
    ∃ argLenV varLenV,
      argLenV ≤ varLenV ∧
      argLenV * 4 ≤ t.sp ∧
      (argLenV = 0 ∨ t.bp + 2 * ptrSize + 4 * argLenV ≤ t.sp) ∧
      u.bp = t.sp - 4 * argLenV ∧
      u.sp = t.sp - 4 * argLenV + 16 + 4 * varLenV ∧
      u.sp ≤ maxStackSize ∧
      u.bytecode = t.bytecode ∧
      u.stack.length = t.stack.length ∧
      readBytes u.stack (t.sp - 4 * argLenV) 8 = t.bp % 2 ^ 64 ∧
      readBytes u.stack (t.sp - 4 * argLenV + 8) 8 = (t.pc + 8) % 2 ^ 64 ∧
      (∀ q n, q + n ≤ t.sp - 4 * argLenV →
        readBytes u.stack q n = readBytes t.stack q n) := by
  obtain ⟨poolI, va, sa, vl, al, hP, h1, h2, hVA, h3, hSA, hVL, hAL,
    h4, h5, h6, h7, h8⟩ := invokeOp_ok_hyps h
  obtain ⟨t', hok, hbp, hsp, hpcq, hpp, hbc, hslen, hsaved, hretv, hslots, hlow⟩ :=
    invokeOp_spec t poolI va sa vl al hP h1 h2 hVA h3 hSA hVL hAL h4 h5 h6 h7 h8 hlen
  have ht : t' = u := Except.ok.inj (hok.symm.trans h)
  subst ht
  exact ⟨al, vl, h4, h5, h6, hbp, hsp, by omega, hbc, hslen, hsaved, hretv, hlow⟩

theorem stepsBal_preserves {s s' : VM} (h : StepsBal s s') :
    VMInv s → VMInv s' ∧ FramePres s s' := by
  induction h with
  | refl s =>
    intro hinv
    exact ⟨hinv, rfl, rfl, rfl, fun q n _ => rfl⟩
  | cons s t u hop3 hop4 hstep hrest ih =>
    intro hinv
    obtain ⟨hinv1, hfp1⟩ := step_preserves hstep hop3 hop4 hinv
    obtain ⟨hinv2, hfp2⟩ := ih hinv1
    obtain ⟨ha1, hb1, hc1, hd1⟩ := hfp1
    obtain ⟨ha2, hb2, hc2, hd2⟩ := hfp2
    refine ⟨hinv2, ha2.trans ha1, hb2.trans hb1, hc2.trans hc1, fun q n hq => ?_⟩
    rw [hd2 q n (by rw [ha1]; exact hq), hd1 q n hq]
  | call s s1 s2 s3 s4 hop hstep hin hret hstepr hrest ih1 ih2 =>
    intro hinv
    obtain ⟨hiv1, hiv2, hiv3⟩ := hinv
    have hps : ptrSize = 8 := rfl
    have hms : maxStackSize = 1024 := rfl
    have hpc : s.pc < s.bytecode.length := opcodeAt_lt_length (by omega)
    rw [step_eq_exec hpc, hop] at hstep
    have hivk : invokeOp { s with pc := s.pc + 1 } = .ok s1 := hstep
    obtain ⟨al, vl, h4, h5, h6, hbp, hsp, hcap, hbc, hslen, hsaved, hretv, hlow⟩ :=
      invokeOp_ok_full hivk hiv3
    dsimp only at h5 h6 hbp hsp hbc hslen hsaved hretv hlow
    have hinv1 : VMInv s1 := by
      refine ⟨?_, hcap, ?_⟩
      · rw [hbp, hsp]
        omega
      · rw [hslen]
        exact hiv3
    obtain ⟨hinv2, hfbp, hfbc, hflen, hfread⟩ := ih1 hinv1
    have hpc2 : s2.pc < s2.bytecode.length := opcodeAt_lt_length (by omega)
    rw [step_eq_exec hpc2, hret] at hstepr
    have hrv : retOp { s2 with pc := s2.pc + 1 } = .ok s3 := hstepr
    obtain ⟨hg, hst3, hsp3, hpc3, hbp3, hbc3, hpp3, hbnd⟩ := retOp_ok_inv hrv
    dsimp only at hg hst3 hsp3 hpc3 hbp3 hbc3 hpp3 hbnd
    have hble : s.bp + 2 * ptrSize ≤ s.sp - 4 * al := by omega
    have hbp2 : s2.bp = s.sp - 4 * al := by rw [hfbp, hbp]
    have hread_bp : readBytes s2.stack (s.sp - 4 * al) 8 = s.bp := by
      rw [hfread (s.sp - 4 * al) 8 (by rw [hbp]; omega), hsaved]
      exact Nat.mod_eq_of_lt (by omega)
    have hbp3' : s3.bp = s.bp := by
      rw [hbp3, hbp2, hread_bp]
    have hinv3 : VMInv s3 := by
      refine ⟨?_, ?_, ?_⟩
      · rw [hbp3', hsp3, hbp2]
        omega
      · rw [hsp3, hbp2]
        omega
      · rw [hst3, hflen, hslen]
        exact hiv3
    have hfp3 : FramePres s s3 := by
      refine ⟨hbp3', ?_, ?_, ?_⟩
      · rw [hbc3, hfbc, hbc]
      · rw [hst3, hflen, hslen]
      · intro q n hq
        rw [hst3, hfread q n (by rw [hbp]; omega), hlow q n (by omega)]
    obtain ⟨hinv4, hfp4⟩ := ih2 hinv3
    obtain ⟨ha2, hb2, hc2, hd2⟩ := hfp4
    obtain ⟨ha1, hb1, hc1, hd1⟩ := hfp3
    refine ⟨hinv4, ha2.trans ha1, hb2.trans hb1, hc2.trans hc1, fun q n hq => ?_⟩
    rw [hd2 q n (by rw [ha1]; exact hq), hd1 q n hq]

/-- Claim C4: for a RET that closes the frame opened by the matching INVOKE
(the steps in between forming a balanced execution: every nested INVOKE closed
by its own RET), the step discards the whole frame above the return address,
sets pc to the pushed return address (the byte after INVOKE's inline operand),
restores bp to the caller's bp pushed at the INVOKE, and leaves the caller's
operand stack exactly as it was after the arguments were popped (sp equals the
callee frame's base, with no value added). -/
theorem c4_ret_restores_frame (s0 s2 : VM)
    (poolI valueAddr startAddr varLenV argLenV : Nat)
    (hop : opcodeAt s0 = 0x03)
    (hP : readBytes s0.bytecode (s0.pc + 1) 8 = poolI)
    (h1 : s0.pc + 1 + 8 ≤ s0.bytecode.length)
    (h2 : poolOffset + poolI * 8 + 8 ≤ s0.bytecode.length)
    (hVA : readBytes s0.bytecode (poolOffset + poolI * 8) 8 = valueAddr)
    (h3 : valueAddr + 11 ≤ s0.bytecode.length)
    (hSA : readBytes s0.bytecode valueAddr 8 = startAddr)
    (hVL : readBytes s0.bytecode (valueAddr + 8) 2 = varLenV)
    (hAL : readBytes s0.bytecode (valueAddr + 10) 1 = argLenV)
    (h4 : argLenV ≤ varLenV) (h5 : argLenV * 4 ≤ s0.sp)
    (h6 : argLenV = 0 ∨ s0.bp + 2 * ptrSize + 4 * argLenV ≤ s0.sp)
    (h7 : s0.sp - 4 * argLenV + 16 + 4 * varLenV ≤ maxStackSize)
    (h8 : startAddr ≤ s0.bytecode.length)
    (hlen : s0.stack.length = maxStackSize)
    (hbp64 : s0.bp < 2 ^ 64) (hbc64 : s0.bytecode.length < 2 ^ 64)
    (s1 : VM) (hstep1 : step s0 = .ok s1)
    (hnc : StepsBal s1 s2) (hret : opcodeAt s2 = 0x04) :
    step s2 = .ok { s2 with sp := s2.bp, pc := s0.pc + 9, bp := s0.bp } ∧
    s2.bp = s0.sp - 4 * argLenV := by
  have hpc0 : s0.pc < s0.bytecode.length := opcodeAt_lt_length (by omega)
  rw [step_eq_exec hpc0, hop] at hstep1
  obtain ⟨t', hok, hbp, hsp, hpcq, hpp, hbc, hslen, hsaved, hretv, hslots, hlowI⟩ :=
    invokeOp_spec { s0 with pc := s0.pc + 1 } poolI valueAddr startAddr
      varLenV argLenV hP h1 h2 hVA h3 hSA hVL hAL h4 h5 h6 h7 h8 hlen
  dsimp only at hbp hsp hslen hbc hretv hsaved hslots
  have ht : t' = s1 := Except.ok.inj (hok.symm.trans hstep1)
  subst ht
  have hinv1 : VMInv t' := by
    refine ⟨?_, ?_, ?_⟩
    · rw [hbp, hsp]
      unfold ptrSize
      omega
    · rw [hsp]
      exact h7
    · rw [hslen]
      exact hlen
  obtain ⟨hinv2, hfbp, hfbc, hflen, hfread⟩ := stepsBal_preserves hnc hinv1
  have hq1 : readBytes s2.stack (s2.bp + 8) 8 = s0.pc + 9 := by
    rw [hfbp, hbp, hfread (s0.sp - 4 * argLenV + 8) 8 (by rw [hbp]; unfold ptrSize; omega), hretv,
      show s0.pc + 1 + 8 = s0.pc + 9 from by omega]
    exact Nat.mod_eq_of_lt (by omega)
  have hq2 : readBytes s2.stack s2.bp 8 = s0.bp := by
    rw [hfbp, hbp, hfread (s0.sp - 4 * argLenV) 8 (by rw [hbp]; unfold ptrSize; omega), hsaved]
    exact Nat.mod_eq_of_lt (by omega)
  have hpc2 : s2.pc < s2.bytecode.length := opcodeAt_lt_length (by omega)
  constructor
  · rw [step_eq_exec hpc2, hret]
    have hr := retOp_spec { s2 with pc := s2.pc + 1 }
      (by dsimp only; exact hinv2.1)
      (by dsimp only
          rw [hq1, hfbc, hbc]
          omega)
    dsimp only at hr
    rw [hq1, hq2] at hr
    exact hr
  · rw [hfbp, hbp]

/-- Claim C4, witness: INVOKE at c4s0 produces the frame state c4s1, whose
immediate RET discards the frame, returns to byte 156 (right after the INVOKE
operand) and restores the caller's bp 0, leaving sp at the callee frame base
16 (the caller's operand-stack top after the argument was popped). -/
theorem c4_ret_restores_frame_witness :
    step c4s1 = .ok { c4s1 with sp := c4s1.bp, pc := c4s0.pc + 9, bp := c4s0.bp } ∧
    c4s1.bp = c4s0.sp - 4 * 1 := by
  exact c4_ret_restores_frame c4s0 c4s1 0 136 100 2 1 (by decide) (by decide)
    (by decide) (by decide) (by decide) (by decide) (by decide) (by decide)
    (by decide) (by decide) (by decide) (by decide) (by decide) (by decide)
    (by decide) (by decide) (by decide) c4s1 (by rfl) (StepsBal.refl c4s1)
    (by decide)
